import Mathlib

/-!
Verification development for a minimal LSP-style server
(`src/server.py` of rkkeerth/lsp-server).

The embedding models, from the source:
  - the JSON value space handled by Python's `json` module with its default
    settings (`ensure_ascii=True`, separators `", "` and `": "`); JSON
    numbers are modelled as integers, which covers every numeric field this
    server reads or writes (ids, line numbers, columns, severities);
  - `LSPServer.send_message` / `LSPServer.read_message` (the framing layer);
  - `LSPServer.analyze_document` (the diagnostic engine), including the
    `re.search` calls with the patterns `\bTODO\b` / `\bFIXME\b` and
    `re.IGNORECASE`;
  - the dispatch layer (`handle_request`, `handle_notification`, the
    individual handlers) and the main loop `run`.

Unicode-dependent character classifications that Python draws from the
Unicode database (which non-ASCII characters count as `\w` word characters,
how `re.IGNORECASE` folds non-ASCII characters, which non-ASCII characters
`str.strip` removes) are abstracted into a `CharTables` parameter; the
ASCII behaviour is fixed exactly.  All theorems quantify over the tables,
so they hold in particular for the real Unicode tables.
-/

namespace LSPServer

/-- Unicode-dependent character classification tables, abstracting the parts
of Python's Unicode database that the server consults for characters outside
ASCII.  `wordUnicode c` says whether a non-ASCII `c` is a regex `\w` word
character; `lowerUnicode c` is the representative that Python's `re` module
compares under `IGNORECASE` (simple lowercasing plus the case-equivalence
table); `spaceUnicode c` says whether `str.strip()` removes a non-ASCII `c`. -/
structure CharTables where
  wordUnicode : Char → Bool
  lowerUnicode : Char → Char
  spaceUnicode : Char → Bool

/-- Concrete tables used for closed witnesses (ASCII-only inputs never
consult them). -/
def asciiTables : CharTables :=
  { wordUnicode := fun _ => false, lowerUnicode := fun c => c,
    spaceUnicode := fun _ => false }

/-- Python regex `\w` word-character test: for ASCII, exactly
`[A-Za-z0-9_]`; beyond ASCII, given by the tables. -/
def isWordChar (T : CharTables) (c : Char) : Bool :=
  if c.toNat < 128 then c.isAlphanum || c == '_' else T.wordUnicode c

/-- The lowercase representative `re.IGNORECASE` compares: ASCII lowering
for ASCII characters, the tables beyond. -/
def pyLower (T : CharTables) (c : Char) : Char :=
  if c.toNat < 128 then c.toLower else T.lowerUnicode c

/-- Case-insensitive match of a text character `c` against an ASCII pattern
character `p`, as `re.IGNORECASE` does for a literal pattern. -/
def icEq (T : CharTables) (p c : Char) : Bool :=
  pyLower T c == p.toLower

/-- Python `str.strip()` whitespace test: the six ASCII whitespace
characters, plus the table entries beyond ASCII. -/
def pyIsSpace (T : CharTables) (c : Char) : Bool :=
  if c.toNat < 128 then
    c.toNat == 32 || c.toNat == 9 || c.toNat == 10 || c.toNat == 13 ||
      c.toNat == 11 || c.toNat == 12
  else T.spaceUnicode c

/-- Python `str.strip()` on a character list. -/
def pyStrip (T : CharTables) (l : List Char) : List Char :=
  ((l.dropWhile (pyIsSpace T)).reverse.dropWhile (pyIsSpace T)).reverse

/-- Number of UTF-16 code units a character occupies. -/
def utf16Width (c : Char) : Nat :=
  if c.toNat < 65536 then 1 else 2

/-- UTF-16 code-unit length of a character list. -/
def utf16Len (l : List Char) : Nat :=
  (l.map utf16Width).sum

/-- Number of UTF-8 bytes a character occupies. -/
def charUtf8Size (c : Char) : Nat :=
  if c.toNat < 128 then 1
  else if c.toNat < 2048 then 2
  else if c.toNat < 65536 then 3
  else 4

/-- UTF-8 byte length of a character list (what `len(content.encode('utf-8'))`
computes in `send_message`). -/
def utf8Len (l : List Char) : Nat :=
  (l.map charUtf8Size).sum

/-- The decimal digit character for `n < 10`. -/
def digitChar (n : Nat) : Char := Char.ofNat (48 + n)

/-- Fuel-driven decimal printer (so that it reduces definitionally). -/
def natToDecAux : Nat → Nat → List Char
  | 0, _ => []
  | fuel + 1, n =>
    if n < 10 then [digitChar n]
    else natToDecAux fuel (n / 10) ++ [digitChar (n % 10)]

/-- Decimal representation of a natural number, as Python's `str`/`repr`
prints it. -/
def natToDec (n : Nat) : List Char := natToDecAux (n + 1) n

/-- Value of a list of decimal digit characters. -/
def decVal (l : List Char) : Nat :=
  l.foldl (fun a c => a * 10 + (c.toNat - 48)) 0

/-- Lowercase hexadecimal digit for `n < 16` (Python's `%04x`). -/
def hexDig (n : Nat) : Char :=
  if n < 10 then Char.ofNat (48 + n) else Char.ofNat (87 + n)

/-- Four-digit lowercase hex, Python's `'\u%04x'` payload. -/
def hex4 (n : Nat) : List Char :=
  [hexDig (n / 4096 % 16), hexDig (n / 256 % 16), hexDig (n / 16 % 16),
    hexDig (n % 16)]

/-- Value of one hexadecimal digit character (upper or lower case accepted,
as in Python's `\uXXXX` escape parsing). -/
def fromHex (c : Char) : Option Nat :=
  if '0' ≤ c ∧ c ≤ '9' then some (c.toNat - 48)
  else if 'a' ≤ c ∧ c ≤ 'f' then some (c.toNat - 87)
  else if 'A' ≤ c ∧ c ≤ 'F' then some (c.toNat - 55)
  else none

/-- Value of four hexadecimal digit characters. -/
def fromHex4 (a b c d : Char) : Option Nat :=
  match fromHex a, fromHex b, fromHex c, fromHex d with
  | some x, some y, some z, some w => some (x * 4096 + y * 256 + z * 16 + w)
  | _, _, _, _ => none

/-- JSON values as Python's `json` module with its default settings maps
them to Python objects: `null`/`None`, booleans, numbers (restricted to
integers — every number this server produces or consumes is an integer),
strings, arrays and objects with string keys.  Object fields keep their
order, matching Python's insertion-ordered `dict`. -/
inductive Json where
  | null : Json
  | bool (b : Bool) : Json
  | num (n : Int) : Json
  | str (s : String) : Json
  | arr (elems : List Json) : Json
  | obj (fields : List (String × Json)) : Json
deriving Repr

mutual

/-- Structural equality of JSON values (Python `==` on the decoded
objects). -/
def beqVal : Json → Json → Bool
  | Json.null, Json.null => true
  | Json.bool a, Json.bool b => a == b
  | Json.num a, Json.num b => a == b
  | Json.str a, Json.str b => a == b
  | Json.arr xs, Json.arr ys => beqArr xs ys
  | Json.obj xs, Json.obj ys => beqObj xs ys
  | _, _ => false

def beqArr : List Json → List Json → Bool
  | [], [] => true
  | x :: xs, y :: ys => beqVal x y && beqArr xs ys
  | _, _ => false

def beqObj : List (String × Json) → List (String × Json) → Bool
  | [], [] => true
  | (k, v) :: xs, (k', v') :: ys => k == k' && beqVal v v' && beqObj xs ys
  | _, _ => false

end

instance : BEq Json := ⟨beqVal⟩

/-- Custom induction principle for the nested inductive `Json`. -/
theorem Json.inductionOn (P : Json → Prop)
    (hnull : P Json.null) (hbool : ∀ b, P (Json.bool b))
    (hnum : ∀ n, P (Json.num n)) (hstr : ∀ s, P (Json.str s))
    (harr : ∀ xs, (∀ x ∈ xs, P x) → P (Json.arr xs))
    (hobj : ∀ kvs, (∀ kv ∈ kvs, P (Prod.snd kv)) → P (Json.obj kvs)) :
    ∀ v, P v := by
  have key : ∀ n : Nat, ∀ v : Json, sizeOf v ≤ n → P v := by
    intro n
    induction n using Nat.strong_induction_on with
    | _ n ih =>
      intro v hv
      match v with
      | Json.null => exact hnull
      | Json.bool b => exact hbool b
      | Json.num m => exact hnum m
      | Json.str s => exact hstr s
      | Json.arr xs =>
        refine harr xs ?_
        intro x hx
        have h1 : sizeOf x < sizeOf xs := List.sizeOf_lt_of_mem hx
        have h2 : sizeOf xs < sizeOf (Json.arr xs) := by
          simp only [Json.arr.sizeOf_spec]; omega
        exact ih (sizeOf x) (by omega) x le_rfl
      | Json.obj kvs =>
        refine hobj kvs ?_
        intro kv hkv
        have h1 : sizeOf kv < sizeOf kvs := List.sizeOf_lt_of_mem hkv
        have h2 : sizeOf kvs < sizeOf (Json.obj kvs) := by
          simp only [Json.obj.sizeOf_spec]; omega
        have h3 : sizeOf kv.2 < sizeOf kv := by
          cases kv with
          | mk a b => simp only [Prod.mk.sizeOf_spec]; omega
        exact ih (sizeOf kv.2) (by omega) kv.2 le_rfl
  exact fun v => key (sizeOf v) v le_rfl

theorem beqVal_iff : ∀ a b : Json, beqVal a b = true ↔ a = b := by
  intro a
  induction a using Json.inductionOn with
  | hnull => intro b; cases b <;> simp [beqVal]
  | hbool x => intro b; cases b <;> simp [beqVal]
  | hnum x => intro b; cases b <;> simp [beqVal]
  | hstr x => intro b; cases b <;> simp [beqVal]
  | harr xs ihxs =>
    intro b
    cases b with
    | arr ys =>
      simp only [beqVal, Json.arr.injEq]
      induction xs generalizing ys with
      | nil => cases ys <;> simp [beqArr]
      | cons x xs ih =>
        cases ys with
        | nil => simp [beqArr]
        | cons y ys =>
          have hx := ihxs x (by simp)
          have ht := ih (fun z hz => ihxs z (by simp [hz])) ys
          simp [beqArr, Bool.and_eq_true, hx y, ht]
    | null => simp [beqVal]
    | bool _ => simp [beqVal]
    | num _ => simp [beqVal]
    | str _ => simp [beqVal]
    | obj _ => simp [beqVal]
  | hobj kvs ihkvs =>
    intro b
    cases b with
    | obj lvs =>
      simp only [beqVal, Json.obj.injEq]
      induction kvs generalizing lvs with
      | nil => cases lvs <;> simp [beqObj]
      | cons kv kvs ih =>
        cases lvs with
        | nil => cases kv; simp [beqObj]
        | cons lv lvs =>
          cases kv with
          | mk k v =>
            cases lv with
            | mk k' v' =>
              have hv := ihkvs (k, v) (by simp)
              have ht := ih (fun z hz => ihkvs z (by simp [hz])) lvs
              simp only [beqObj, Bool.and_eq_true, beq_iff_eq, hv v', ht,
                List.cons.injEq, Prod.mk.injEq]
              try tauto
    | null => simp [beqVal]
    | bool _ => simp [beqVal]
    | num _ => simp [beqVal]
    | str _ => simp [beqVal]
    | arr _ => simp [beqVal]

instance : DecidableEq Json :=
  fun a b => decidable_of_iff (beqVal a b = true) (beqVal_iff a b)

/-- The opening brace character. -/
def lbr : Char := Char.ofNat 123

/-- The closing brace character. -/
def rbr : Char := Char.ofNat 125

/-- How `json.dumps` (with its default `ensure_ascii=True`) renders one
character of a string: `"` and `\` and the five short control escapes get
two-character escapes, other printable ASCII is emitted literally, every
other character becomes `\uXXXX` (a surrogate pair for characters beyond
the BMP). -/
def escChar (c : Char) : List Char :=
  if c = '"' then ['\\', '"']
  else if c = '\\' then ['\\', '\\']
  else if 32 ≤ c.toNat ∧ c.toNat ≤ 126 then [c]
  else if c = Char.ofNat 8 then ['\\', 'b']
  else if c = Char.ofNat 12 then ['\\', 'f']
  else if c = '\n' then ['\\', 'n']
  else if c = '\r' then ['\\', 'r']
  else if c = '\t' then ['\\', 't']
  else if c.toNat < 65536 then '\\' :: 'u' :: hex4 c.toNat
  else
    ('\\' :: 'u' :: hex4 (55296 + (c.toNat - 65536) / 1024)) ++
      ('\\' :: 'u' :: hex4 (56320 + (c.toNat - 65536) % 1024))

/-- `json.dumps` escaping of a whole string body. -/
def escStr (l : List Char) : List Char := l.flatMap escChar

/-- A serialized JSON string, quotes included. -/
def dumpStr (s : String) : List Char :=
  '"' :: escStr s.data ++ ['"']

/-- A serialized JSON integer (Python `int.__repr__`). -/
def dumpInt (n : Int) : List Char :=
  if n < 0 then '-' :: natToDec n.natAbs else natToDec n.toNat

mutual

/-- `json.dumps` with its defaults: item separator `", "`, key separator
`": "`, `ensure_ascii=True`. -/
def dumpVal : Json → List Char
  | Json.null => ['n', 'u', 'l', 'l']
  | Json.bool true => ['t', 'r', 'u', 'e']
  | Json.bool false => ['f', 'a', 'l', 's', 'e']
  | Json.num n => dumpInt n
  | Json.str s => dumpStr s
  | Json.arr [] => ['[', ']']
  | Json.arr (x :: xs) => '[' :: (dumpVal x ++ dumpItems xs) ++ [']']
  | Json.obj [] => [lbr, rbr]
  | Json.obj (kv :: kvs) => lbr :: (dumpKV kv ++ dumpFields kvs) ++ [rbr]

/-- One `"key": value` pair. -/
def dumpKV : String × Json → List Char
  | (k, v) => dumpStr k ++ ':' :: ' ' :: dumpVal v

/-- Remaining array items, each preceded by the `", "` separator. -/
def dumpItems : List Json → List Char
  | [] => []
  | x :: xs => ',' :: ' ' :: (dumpVal x ++ dumpItems xs)

/-- Remaining object fields, each preceded by the `", "` separator. -/
def dumpFields : List (String × Json) → List Char
  | [] => []
  | kv :: kvs => ',' :: ' ' :: (dumpKV kv ++ dumpFields kvs)

end

mutual

/-- Well-formedness of a JSON value as a Python object: object keys are
pairwise distinct at every level (a Python `dict` cannot hold duplicate
keys). -/
def wfVal : Json → Bool
  | Json.null => true
  | Json.bool _ => true
  | Json.num _ => true
  | Json.str _ => true
  | Json.arr xs => wfArr xs
  | Json.obj kvs => wfObj kvs

def wfArr : List Json → Bool
  | [] => true
  | x :: xs => wfVal x && wfArr xs

def wfObj : List (String × Json) → Bool
  | [] => true
  | (k, v) :: kvs =>
    kvs.all (fun kv => !(kv.1 == k)) && wfVal v && wfObj kvs

end

/-- The whitespace characters the JSON scanner skips between tokens
(space, tab, newline, carriage return). -/
def jsonWs (c : Char) : Bool :=
  c.toNat == 32 || c.toNat == 9 || c.toNat == 10 || c.toNat == 13

/-- Skip JSON inter-token whitespace. -/
def skipWs (l : List Char) : List Char := l.dropWhile jsonWs

/-- The JSON string scanner (CPython `py_scanstring`, strict mode), applied
after the opening quote: literal characters up to the closing quote, the
short backslash escapes, and `\uXXXX` escapes with surrogate-pair
recombination.  Raw control characters are rejected (strict mode), and lone
surrogates — which Python would keep as unpaired surrogate code points, not
representable in `Char` — make the model fail. -/
inductive StrTok where
  | done (rest : List Char) : StrTok
  | ch (c : Char) (rest : List Char) : StrTok
  | bad : StrTok

/-- One step of the JSON string scanner (CPython `py_scanstring`, strict
mode), applied inside the quotes: the closing quote ends the string; a
backslash introduces one of the short escapes or a `\uXXXX` escape (with
surrogate-pair recombination — a lone surrogate, which Python would keep
as an unpaired surrogate code point, is not representable in `Char` and
makes the model fail); a raw control character is rejected; anything else
is taken literally. -/
def pStrTok : List Char → StrTok
  | [] => StrTok.bad
  | c :: rest =>
    if c = '"' then StrTok.done rest
    else if c = '\\' then
      match rest with
      | 'u' :: a :: b :: c2 :: d :: rest2 =>
        match fromHex4 a b c2 d with
        | none => StrTok.bad
        | some n =>
          if n < 55296 ∨ 57344 ≤ n then StrTok.ch (Char.ofNat n) rest2
          else if n < 56320 then
            match rest2 with
            | '\\' :: 'u' :: e :: f :: g :: h :: rest3 =>
              match fromHex4 e f g h with
              | some m =>
                if 56320 ≤ m ∧ m < 57344 then
                  StrTok.ch (Char.ofNat
                    (65536 + (n - 55296) * 1024 + (m - 56320))) rest3
                else StrTok.bad
              | none => StrTok.bad
            | _ => StrTok.bad
          else StrTok.bad
      | e :: rest2 =>
        match
          (if e = '"' then some '"'
           else if e = '\\' then some '\\'
           else if e = '/' then some '/'
           else if e = 'b' then some (Char.ofNat 8)
           else if e = 'f' then some (Char.ofNat 12)
           else if e = 'n' then some '\n'
           else if e = 'r' then some '\r'
           else if e = 't' then some '\t'
           else none) with
        | some c2 => StrTok.ch c2 rest2
        | none => StrTok.bad
      | [] => StrTok.bad
    else if c.toNat < 32 then StrTok.bad
    else StrTok.ch c rest

/-- The JSON string scanner: iterate `pStrTok` until the closing quote.
The fuel only bounds the number of scanned characters; every use supplies
enough of it. -/
def pStrBody : Nat → List Char → Option (List Char × List Char)
  | 0, _ => none
  | fuel + 1, l =>
    match pStrTok l with
    | StrTok.done rest => some ([], rest)
    | StrTok.ch c rest =>
      match pStrBody fuel rest with
      | some (s, r) => some (c :: s, r)
      | none => none
    | StrTok.bad => none

/-- The integer part of the JSON number grammar
`(-?(?:0|[1-9]\d*))`: a bare zero, or a nonzero digit followed by a
maximal run of digits. -/
def pNatTail : List Char → Option (Nat × List Char)
  | [] => none
  | c :: rest =>
    if c = '0' then some (0, rest)
    else if c.isDigit then
      some (decVal (c :: rest.takeWhile Char.isDigit),
        rest.dropWhile Char.isDigit)
    else none

/-- After the integer part, the scanner hands the value to `int` only when
no fraction (`.` followed by a digit) or exponent (`e`/`E`, optional sign,
a digit) follows; otherwise the number is a float, outside this model. -/
def intTailOk (l : List Char) : Bool :=
  match l with
  | [] => true
  | c :: t =>
    if c = '.' then
      match t with
      | d :: _ => !d.isDigit
      | [] => true
    else if c = 'e' ∨ c = 'E' then
      match t with
      | '+' :: d :: _ => !d.isDigit
      | '-' :: d :: _ => !d.isDigit
      | d :: _ => !d.isDigit
      | [] => true
    else true

/-- A continuation after which a serialized integer can safely stop: the
next character (if any) extends neither the digit run nor a fraction or
exponent.  Inside a serialized message every value is followed by a
separator or closing bracket, which satisfies this. -/
def goodTail (l : List Char) : Bool :=
  match l with
  | [] => true
  | c :: _ => !c.isDigit && !(c == '.') && !(c == 'e') && !(c == 'E')

/-- Parse a JSON integer (optional minus sign, then the integer part). -/
def pNum (l : List Char) : Option (Json × List Char) :=
  match l with
  | [] => none
  | c :: rest =>
    if c = '-' then
      match pNatTail rest with
      | some (n, r) => if intTailOk r then some (Json.num (-(n : Int)), r)
                       else none
      | none => none
    else
      match pNatTail (c :: rest) with
      | some (n, r) => if intTailOk r then some (Json.num (n : Int), r)
                       else none
      | none => none

/-- Python `dict` construction from a key/value pair list (`dict(pairs)`):
insertion order with in-place overwrite on duplicate keys. -/
def dictSetS (m : List (String × Json)) (k : String) (v : Json) :
    List (String × Json) :=
  match m with
  | [] => [(k, v)]
  | (k', v') :: rest =>
    if k' = k then (k, v) :: rest else (k', v') :: dictSetS rest k v

/-- `dict(pairs)` on the pair list collected by the object scanner. -/
def pyDict (kvs : List (String × Json)) : List (String × Json) :=
  kvs.foldl (fun acc kv => dictSetS acc kv.1 kv.2) []

mutual

/-- The JSON value scanner (CPython `scan_once`): dispatch on the first
character, which must not be whitespace.  The fuel argument only bounds
recursion depth; every theorem supplies enough of it. -/
def pVal : Nat → List Char → Option (Json × List Char)
  | 0, _ => none
  | _ + 1, [] => none
  | fuel + 1, ch :: rest =>
    if ch = '"' then
      match pStrBody (rest.length + 1) rest with
      | some (s, r) => some (Json.str (String.mk s), r)
      | none => none
    else if ch = '[' then
      match skipWs rest with
      | [] => none
      | c :: r =>
        if c = ']' then some (Json.arr [], r)
        else
          match pItems fuel (c :: r) with
          | some (xs, r2) => some (Json.arr xs, r2)
          | none => none
    else if ch = lbr then
      match skipWs rest with
      | c :: r =>
        if c = rbr then some (Json.obj [], r)
        else
          match pFields fuel (c :: r) with
          | some (kvs, r2) => some (Json.obj (pyDict kvs), r2)
          | none => none
      | [] => none
    else if ch = 't' then
      match rest with
      | 'r' :: 'u' :: 'e' :: r => some (Json.bool true, r)
      | _ => none
    else if ch = 'f' then
      match rest with
      | 'a' :: 'l' :: 's' :: 'e' :: r => some (Json.bool false, r)
      | _ => none
    else if ch = 'n' then
      match rest with
      | 'u' :: 'l' :: 'l' :: r => some (Json.null, r)
      | _ => none
    else pNum (ch :: rest)

/-- Array items (CPython `JSONArray`): value, optional whitespace, then a
comma (whitespace-tolerant) and the next item, or the closing bracket. -/
def pItems : Nat → List Char → Option (List Json × List Char)
  | 0, _ => none
  | fuel + 1, l =>
    match pVal fuel l with
    | some (v, r) =>
      match skipWs r with
      | [] => none
      | c :: r2 =>
        if c = ',' then
          match pItems fuel (skipWs r2) with
          | some (vs, r3) => some (v :: vs, r3)
          | none => none
        else if c = ']' then some ([v], r2)
        else none
    | none => none

/-- Object fields (CPython `JSONObject`): a string key, `:` (whitespace
tolerated on both sides), a value, then a comma and the next field or the
closing brace. -/
def pFields : Nat → List Char → Option (List (String × Json) × List Char)
  | 0, _ => none
  | fuel + 1, l =>
    match l with
    | '"' :: rest =>
      match pStrBody (rest.length + 1) rest with
      | some (k, r1) =>
        match skipWs r1 with
        | [] => none
        | c :: r3 =>
          if c = ':' then
            match pVal fuel (skipWs r3) with
            | some (v, r4) =>
              match skipWs r4 with
              | [] => none
              | c2 :: r6 =>
                if c2 = ',' then
                  match pFields fuel (skipWs r6) with
                  | some (kvs, r7) => some ((String.mk k, v) :: kvs, r7)
                  | none => none
                else if c2 = rbr then some ([(String.mk k, v)], r6)
                else none
            | none => none
          else none
      | none => none
    | _ => none

end

/-- `json.loads`: skip leading whitespace, scan one value, skip trailing
whitespace, and insist the input is exhausted (`Extra data` otherwise). -/
def loads (l : List Char) : Option Json :=
  match pVal (l.length + 1) (skipWs l) with
  | some (v, r) => if skipWs r = [] then some v else none
  | none => none

mutual

/-- Recursion-depth bound the scanner needs for a value (each nested value
and each further list element costs one unit of fuel).  It never exceeds
the length of the serialized form. -/
def pNeed : Json → Nat
  | Json.null => 1
  | Json.bool _ => 1
  | Json.num _ => 1
  | Json.str _ => 1
  | Json.arr xs => 1 + pNeedItems xs
  | Json.obj kvs => 1 + pNeedFields kvs

def pNeedItems : List Json → Nat
  | [] => 0
  | x :: xs => 1 + max (pNeed x) (pNeedItems xs)

def pNeedFields : List (String × Json) → Nat
  | [] => 0
  | (_, v) :: kvs => 1 + max (pNeed v) (pNeedFields kvs)

end

/-- `sys.stdin.readline()`: the characters up to and including the first
newline (or the whole remaining stream), plus the rest of the stream. -/
def readLine : List Char → List Char × List Char
  | [] => ([], [])
  | c :: cs =>
    if c = '\n' then ([c], cs)
    else
      let (l, r) := readLine cs
      (c :: l, r)

/-- `line.split(": ", 1)`: split at the first occurrence of the two-character
separator; `none` models the `ValueError` Python raises when the separator
is absent. -/
def splitColonSpace : List Char → Option (List Char × List Char)
  | [] => none
  | [_] => none
  | c :: d :: rest =>
    if c = ':' ∧ d = ' ' then some ([], rest)
    else
      match splitColonSpace (d :: rest) with
      | some (k, v) => some (c :: k, v)
      | none => none

/-- Assoc-list lookup with Python `dict.get` semantics (keys are unique in
a `dict`, so first match is the match). -/
def lookupKey (m : List (List Char × List Char)) (k : List Char) :
    Option (List Char) :=
  match m with
  | [] => none
  | (k', v) :: rest => if k' = k then some v else lookupKey rest k

/-- `headers[key] = value`: in-place overwrite if the key exists, append
otherwise. -/
def storeHeader (m : List (List Char × List Char)) (k v : List Char) :
    List (List Char × List Char) :=
  match m with
  | [] => [(k, v)]
  | (k', v') :: rest =>
    if k' = k then (k, v) :: rest else (k', v') :: storeHeader rest k v

/-- Python `int(str)`: optional surrounding whitespace, an optional sign,
then at least one ASCII digit (single underscores between digits, and
non-ASCII digits, are left out of the model); `none` is the `ValueError`. -/
def pyInt (T : CharTables) (l : List Char) : Option Int :=
  match pyStrip T l with
  | [] => none
  | c :: rest =>
    if c = '-' then
      if rest ≠ [] ∧ rest.all Char.isDigit then
        some (-(decVal rest : Int))
      else none
    else if c = '+' then
      if rest ≠ [] ∧ rest.all Char.isDigit then
        some ((decVal rest : Int))
      else none
    else
      if (c :: rest).all Char.isDigit then
        some ((decVal (c :: rest) : Int))
      else none

/-- The header-reading loop of `read_message`: read a line; an empty read
is end-of-stream (`None`); a line that strips to nothing ends the headers;
otherwise split on `": "` and store the pair.  The fuel only bounds the
number of lines; every theorem supplies enough of it. -/
def readHeaders (T : CharTables) :
    Nat → List Char → List (List Char × List Char) →
    Option (List (List Char × List Char) × List Char)
  | 0, _, _ => none
  | fuel + 1, stream, acc =>
    let (line, rest) := readLine stream
    if line = [] then none
    else
      let s := pyStrip T line
      if s = [] then some (acc, rest)
      else
        match splitColonSpace s with
        | some (k, v) => readHeaders T fuel rest (storeHeader acc k v)
        | none => none

/-- `LSPServer.read_message`: read headers, take `Content-Length` (default
`0`), and read that many characters of body (the stream is text-mode, so
`sys.stdin.read(n)` counts characters); a declared length of `0` is the
clean no-message signal.  A negative length makes Python read the whole
remaining stream.  The body is parsed with `json.loads`; any exception on
the way (header without `": "`, unparsable length, JSON parse failure, and
the `message.get` logging call, which raises on a non-object message) also
yields `none`, since `run` stops the loop in either case. -/
def readMessage (T : CharTables) (stream : List Char) :
    Option (Json × List Char) :=
  match readHeaders T (stream.length + 1) stream [] with
  | none => none
  | some (headers, rest) =>
    let lenField : Option Int :=
      match lookupKey headers ("Content-Length".data) with
      | some v => pyInt T v
      | none => some 0
    match lenField with
    | none => none
    | some n =>
      if n = 0 then none
      else
        let content := if n < 0 then rest else rest.take n.toNat
        let left := if n < 0 then [] else rest.drop n.toNat
        match loads content with
        | some msg =>
          match msg with
          | Json.obj _ => some (msg, left)
          | _ => none
        | none => none

/-- `LSPServer.send_message`: serialize with `json.dumps`, measure the body
in UTF-8 bytes, and emit `Content-Length: <n>\r\n\r\n` followed by the
body with no trailing delimiter. -/
def sendMessage (message : Json) : List Char :=
  let content := dumpVal message
  let contentLength := utf8Len content
  "Content-Length: ".data ++ natToDec contentLength ++ "\r\n\r\n".data ++
    content

/-- Case-insensitive comparison of the pattern characters `w` against the
text from some position on: every pattern character must be matched by the
corresponding text character. -/
def icMatches (T : CharTables) : List Char → List Char → Bool
  | [], _ => true
  | _ :: _, [] => false
  | p :: ps, c :: cs => icEq T p c && icMatches T ps cs

/-- Whether the regex `\b<w>\b` (with `re.IGNORECASE`, for a pattern `w`
made of ASCII letters) matches the line `l` at character position `i`:
the pattern characters match case-insensitively, and both neighbours —
when they exist — are not word characters.  Since every pattern character
is an ASCII letter, the `\b` boundary on each side reduces to exactly
this condition. -/
def isMatchAt (T : CharTables) (w l : List Char) (i : Nat) : Bool :=
  icMatches T w (l.drop i) &&
    (decide (i = 0) || !isWordChar T (l.getD (i - 1) ' ')) &&
    (decide (l.length ≤ i + w.length) ||
      !isWordChar T (l.getD (i + w.length) ' '))

/-- Leftmost position at or after `i` satisfying `p`, scanning at most
`fuel` positions. -/
def firstMatchAux (p : Nat → Bool) : Nat → Nat → Option Nat
  | _, 0 => none
  | i, fuel + 1 => if p i then some i else firstMatchAux p (i + 1) fuel

/-- `re.search(r'\b<w>\b', line, re.IGNORECASE)`: the leftmost match, as
the pair `(match.start(), match.end())`. -/
def findWord (T : CharTables) (w l : List Char) : Option (Nat × Nat) :=
  match firstMatchAux (fun i => isMatchAt T w l i) 0 (l.length + 1) with
  | some i => some (i, i + w.length)
  | none => none

/-- Number of positions of `l` at which `\b<w>\b` matches. -/
def countMatches (T : CharTables) (w l : List Char) : Nat :=
  ((List.range (l.length + 1)).filter (fun i => isMatchAt T w l i)).length

/-- One diagnostic record, with the fields `analyze_document` fills in:
a start/end position (0-indexed line and character), a message, a numeric
severity, and the producing tool tag. -/
structure Diag where
  startLine : Nat
  startChar : Nat
  endLine : Nat
  endChar : Nat
  message : String
  severity : Nat
  source : String
deriving DecidableEq, Repr

/-- Message of a TODO diagnostic. -/
def todoMsg : String := "TODO found: Consider addressing this item"

/-- Message of a FIXME diagnostic. -/
def fixmeMsg : String := "FIXME found: This requires immediate attention"

/-- Message of a line-length diagnostic for a line of length `n`. -/
def lenMsg (n : Nat) : String :=
  "Line too long (" ++ String.mk (natToDec n) ++ " > 120 characters)"

/-- Message of a duplicate-line diagnostic. -/
def dupMsg : String := "Duplicate line detected"

/-- The source tag on every diagnostic. -/
def srcTag : String := "basic-lsp-server"

/-- Python `text.split('\n')`: split at every newline; the empty text
gives one empty line, a trailing newline yields a final empty line. -/
def splitNl : List Char → List (List Char)
  | [] => [[]]
  | c :: cs =>
    if c = '\n' then [] :: splitNl cs
    else
      match splitNl cs with
      | h :: t => (c :: h) :: t
      | [] => [[c]]

/-- The TODO marker check of `analyze_document` on one line. -/
def todoPart (T : CharTables) (lineNum : Nat) (l : List Char) : List Diag :=
  match findWord T ("TODO".data) l with
  | some (s, e) => [⟨lineNum, s, lineNum, e, todoMsg, 3, srcTag⟩]
  | none => []

/-- The FIXME marker check of `analyze_document` on one line. -/
def fixmePart (T : CharTables) (lineNum : Nat) (l : List Char) :
    List Diag :=
  match findWord T ("FIXME".data) l with
  | some (s, e) => [⟨lineNum, s, lineNum, e, fixmeMsg, 2, srcTag⟩]
  | none => []

/-- The line-length check of `analyze_document` on one line. -/
def lenPart (lineNum : Nat) (l : List Char) : List Diag :=
  if 120 < l.length then
    [⟨lineNum, 120, lineNum, l.length, lenMsg l.length, 2, srcTag⟩]
  else []

/-- The duplicate-consecutive-line check of `analyze_document`:
`line_num > 0 and line.strip() and line == lines[line_num - 1]`. -/
def dupPart (T : CharTables) (lineNum : Nat) (l prev : List Char) :
    List Diag :=
  if 0 < lineNum ∧ pyStrip T l ≠ [] ∧ l = prev then
    [⟨lineNum, 0, lineNum, l.length, dupMsg, 3, srcTag⟩]
  else []

/-- The diagnostics `analyze_document` appends for one line: the TODO
check, the FIXME check, the line-length check, and the
duplicate-consecutive-line check, in that order.  `lines` is the full
line list (the duplicate check looks at the preceding line);
out-of-range indices read as the empty line. -/
def analyzeLine (T : CharTables) (lines : List (List Char))
    (lineNum : Nat) : List Diag :=
  let l := lines.getD lineNum []
  todoPart T lineNum l ++ fixmePart T lineNum l ++ lenPart lineNum l ++
    dupPart T lineNum l (lines.getD (lineNum - 1) [])

/-- The loop of `analyze_document` over the enumerated line list. -/
def analyzeLines (T : CharTables) (lines : List (List Char)) : List Diag :=
  (List.range lines.length).flatMap (analyzeLine T lines)

/-- `LSPServer.analyze_document`: split the text on newlines and run the
four per-line checks in order. -/
def analyze (T : CharTables) (text : String) : List Diag :=
  analyzeLines T (splitNl text.data)

/-- Classification of a diagnostic by its message: TODO, FIXME, length and
duplicate diagnostics are ranked `0`, `1`, `2`, `3` (matching their fixed
within-line emission order; the three fixed messages are mutually distinct
and distinct from every length message). -/
def diagKind (d : Diag) : Nat :=
  if d.message = todoMsg then 0
  else if d.message = fixmeMsg then 1
  else if d.message = dupMsg then 3
  else 2

/-- Python truthiness of a JSON-decoded value (`if not message: break` and
`if content_changes:`): `None`, `False`, `0`, and empty strings, lists and
dicts are falsy. -/
def pyTruthy : Json → Bool
  | Json.null => false
  | Json.bool b => b
  | Json.num n => !(n == 0)
  | Json.str s => !(s.data == [])
  | Json.arr xs => !(xs.isEmpty)
  | Json.obj kvs => !(kvs.isEmpty)

/-- `dict.get(key, default)` on a JSON object's field list. -/
def jGetD (kvs : List (String × Json)) (k : String) (d : Json) : Json :=
  match kvs with
  | [] => d
  | (k', v) :: rest => if k' = k then v else jGetD rest k d

/-- `dict.get(key)` where the caller treats `None` and a stored JSON
`null` alike (both decode to Python `None`): `none` when the key is
absent or its value is `null`. -/
def jGetOpt (kvs : List (String × Json)) (k : String) : Option Json :=
  match kvs with
  | [] => none
  | (k', v) :: rest =>
    if k' = k then (if v = Json.null then none else some v)
    else jGetOpt rest k

/-- The server's document map `self.documents`: a Python `dict` keyed by
whatever value the `uri` field held (`none` being Python `None`), in
insertion order. -/
abbrev DocMap := List (Option Json × Json)

/-- `self.documents[uri] = text`: in-place overwrite or append. -/
def docSet (m : DocMap) (k : Option Json) (v : Json) : DocMap :=
  match m with
  | [] => [(k, v)]
  | (k', v') :: rest =>
    if k' = k then (k, v) :: rest else (k', v') :: docSet rest k v

/-- `if uri in self.documents: del self.documents[uri]`. -/
def docDel (m : DocMap) (k : Option Json) : DocMap :=
  match m with
  | [] => []
  | (k', v') :: rest =>
    if k' = k then rest else (k', v') :: docDel rest k

/-- The mutable server state: the document map and the `running` and
`initialized` flags. -/
structure SState where
  documents : DocMap
  running : Bool
  initialized : Bool
deriving DecidableEq, Repr

/-- The initial server state built by `LSPServer.__init__`. -/
def initState : SState :=
  { documents := [], running := true, initialized := false }

/-- One diagnostic as the JSON object `publish_diagnostics` embeds. -/
def diagToJson (d : Diag) : Json :=
  Json.obj
    [("range", Json.obj
      [("start", Json.obj
        [("line", Json.num d.startLine), ("character", Json.num d.startChar)]),
       ("end", Json.obj
        [("line", Json.num d.endLine), ("character", Json.num d.endChar)])]),
     ("message", Json.str d.message),
     ("severity", Json.num d.severity),
     ("source", Json.str d.source)]

/-- The `textDocument/publishDiagnostics` notification
`publish_diagnostics` sends (a `None` uri serializes as JSON `null`). -/
def publishNote (uri : Option Json) (diags : List Diag) : Json :=
  Json.obj
    [("jsonrpc", Json.str "2.0"),
     ("method", Json.str "textDocument/publishDiagnostics"),
     ("params", Json.obj
       [("uri", uri.getD Json.null),
        ("diagnostics", Json.arr (diags.map diagToJson))])]

/-- The result value `handle_initialize` returns. -/
def initializeResult : Json :=
  Json.obj
    [("capabilities", Json.obj
      [("textDocumentSync", Json.obj
        [("openClose", Json.bool true),
         ("change", Json.num 1),
         ("save", Json.obj [("includeText", Json.bool false)])]),
       ("diagnosticProvider", Json.obj
        [("interFileDependencies", Json.bool false),
         ("workspaceDiagnostics", Json.bool false)])]),
     ("serverInfo", Json.obj
       [("name", Json.str "basic-lsp-server"),
        ("version", Json.str "0.1.0")])]

/-- `LSPServer.handle_request`: look the method up in the fixed
request-handler table `{initialize, shutdown}`; on a hit, run the handler
and send `{jsonrpc, id, result}`; on a miss, log a warning and send
nothing.  The result is the new state together with the list of messages
passed to `send_message`.  (The modelled handlers are total, so the
source's internal-error response branch is unreachable here.) -/
def handleRequest (st : SState) (requestId : Json) (method : Json)
    (_params : Json) : SState × List Json :=
  if method = Json.str "initialize" then
    ({ st with initialized := true },
      [Json.obj [("jsonrpc", Json.str "2.0"), ("id", requestId),
        ("result", initializeResult)]])
  else if method = Json.str "shutdown" then
    ({ st with running := false },
      [Json.obj [("jsonrpc", Json.str "2.0"), ("id", requestId),
        ("result", Json.null)]])
  else (st, [])

/-- `LSPServer.handle_text_document_did_open`.  Exceptions raised inside
the handler (attribute errors on non-dict parameters, `str.split` on a
non-string text) are caught by `handle_notification`, so those paths
return with whatever state changes already happened and no output. -/
def handleDidOpen (T : CharTables) (st : SState) (params : Json) :
    SState × List Json :=
  match params with
  | Json.obj pkvs =>
    match jGetD pkvs "textDocument" (Json.obj []) with
    | Json.obj tdkvs =>
      let uri := jGetOpt tdkvs "uri"
      let text := jGetD tdkvs "text" (Json.str "")
      let docs := docSet st.documents uri text
      match text with
      | Json.str s =>
        ({ st with documents := docs },
          [publishNote uri (analyze T s)])
      | _ => ({ st with documents := docs }, [])
    | _ => (st, [])
  | _ => (st, [])

/-- `LSPServer.handle_text_document_did_change`: full-document sync from
the first content-change entry; an empty (or otherwise falsy)
`contentChanges` does nothing.  As in `handleDidOpen`, exception paths
return with the changes made so far and no output. -/
def handleDidChange (T : CharTables) (st : SState) (params : Json) :
    SState × List Json :=
  match params with
  | Json.obj pkvs =>
    match jGetD pkvs "textDocument" (Json.obj []) with
    | Json.obj tdkvs =>
      let uri := jGetOpt tdkvs "uri"
      let contentChanges := jGetD pkvs "contentChanges" (Json.arr [])
      if pyTruthy contentChanges then
        match contentChanges with
        | Json.arr (c0 :: _) =>
          match c0 with
          | Json.obj ckvs =>
            let text := jGetD ckvs "text" (Json.str "")
            let docs := docSet st.documents uri text
            match text with
            | Json.str s =>
              ({ st with documents := docs },
                [publishNote uri (analyze T s)])
            | _ => ({ st with documents := docs }, [])
          | _ => (st, [])
        | _ => (st, [])
      else (st, [])
    | _ => (st, [])
  | _ => (st, [])

/-- `LSPServer.handle_text_document_did_close`: drop the document if
present and publish an empty diagnostics list. -/
def handleDidClose (st : SState) (params : Json) : SState × List Json :=
  match params with
  | Json.obj pkvs =>
    match jGetD pkvs "textDocument" (Json.obj []) with
    | Json.obj tdkvs =>
      let uri := jGetOpt tdkvs "uri"
      ({ st with documents := docDel st.documents uri },
        [publishNote uri []])
    | _ => (st, [])
  | _ => (st, [])

/-- `LSPServer.handle_notification`: the fixed notification-handler table.
The third component records whether the handler terminated the process
(`sys.exit(0)` on `exit`, which no `except Exception` catches).  Unknown
methods are logged and ignored. -/
def handleNote (T : CharTables) (st : SState) (method : Json)
    (params : Json) : SState × List Json × Bool :=
  if method = Json.str "initialized" then (st, [], false)
  else if method = Json.str "textDocument/didOpen" then
    let (st', out) := handleDidOpen T st params
    (st', out, false)
  else if method = Json.str "textDocument/didChange" then
    let (st', out) := handleDidChange T st params
    (st', out, false)
  else if method = Json.str "textDocument/didClose" then
    let (st', out) := handleDidClose st params
    (st', out, false)
  else if method = Json.str "exit" then (st, [], true)
  else (st, [], false)

/-- `LSPServer.run`: while `running`, read one message and dispatch it as
a request (an `id` decoding to something other than `None`) or a
notification; collect everything passed to `send_message`.  A failed or
empty read, a falsy message, and process exit all end the loop.  The fuel
bounds the number of loop iterations; every theorem supplies enough. -/
def runFuel (T : CharTables) : Nat → SState → List Char → List Json
  | 0, _, _ => []
  | fuel + 1, st, stream =>
    if st.running then
      match readMessage T stream with
      | none => []
      | some (msg, rest) =>
        if pyTruthy msg then
          match msg with
          | Json.obj kvs =>
            let method := jGetD kvs "method" Json.null
            let params := jGetD kvs "params" (Json.obj [])
            let requestId := jGetD kvs "id" Json.null
            if requestId = Json.null then
              let (st', out, exited) := handleNote T st method params
              if exited then out else out ++ runFuel T fuel st' rest
            else
              let (st', out) := handleRequest st requestId method params
              out ++ runFuel T fuel st' rest
          | _ => []
        else []
    else []

/-! ### Facts about the diagnostic messages -/

theorem lenMsg_data (n : Nat) : (lenMsg n).data =
    "Line too long (".data ++ natToDec n ++ " > 120 characters)".data := by
  show (("Line too long (" ++ String.mk (natToDec n)) ++
    " > 120 characters)").data = _
  rw [String.data_append, String.data_append]

theorem lenMsg_head (n : Nat) : (lenMsg n).data.head? = some 'L' := by
  rw [lenMsg_data]; rfl

theorem lenMsg_ne_todoMsg (n : Nat) : lenMsg n ≠ todoMsg := by
  intro h
  have h1 : (lenMsg n).data.head? = todoMsg.data.head? := by rw [h]
  rw [lenMsg_head] at h1
  exact absurd h1 (by decide)

theorem lenMsg_ne_fixmeMsg (n : Nat) : lenMsg n ≠ fixmeMsg := by
  intro h
  have h1 : (lenMsg n).data.head? = fixmeMsg.data.head? := by rw [h]
  rw [lenMsg_head] at h1
  exact absurd h1 (by decide)

theorem lenMsg_ne_dupMsg (n : Nat) : lenMsg n ≠ dupMsg := by
  intro h
  have h1 : (lenMsg n).data.head? = dupMsg.data.head? := by rw [h]
  rw [lenMsg_head] at h1
  exact absurd h1 (by decide)

theorem diagKind_lenPart (n a b c : Nat) :
    diagKind ⟨a, b, a, c, lenMsg n, 2, srcTag⟩ = 2 := by
  simp [diagKind, lenMsg_ne_todoMsg, lenMsg_ne_fixmeMsg, lenMsg_ne_dupMsg]

/-! ### Shapes of the four per-line check outputs -/

theorem todoPart_eq (T : CharTables) (i : Nat) (l : List Char) :
    todoPart T i l = [] ∨ ∃ s e, findWord T ("TODO".data) l = some (s, e) ∧
      todoPart T i l = [⟨i, s, i, e, todoMsg, 3, srcTag⟩] := by
  unfold todoPart
  cases h : findWord T ("TODO".data) l with
  | none => exact Or.inl rfl
  | some p =>
    obtain ⟨s, e⟩ := p
    exact Or.inr ⟨s, e, rfl, rfl⟩

theorem fixmePart_eq (T : CharTables) (i : Nat) (l : List Char) :
    fixmePart T i l = [] ∨ ∃ s e, findWord T ("FIXME".data) l = some (s, e) ∧
      fixmePart T i l = [⟨i, s, i, e, fixmeMsg, 2, srcTag⟩] := by
  unfold fixmePart
  cases h : findWord T ("FIXME".data) l with
  | none => exact Or.inl rfl
  | some p =>
    obtain ⟨s, e⟩ := p
    exact Or.inr ⟨s, e, rfl, rfl⟩

theorem mem_todoPart (T : CharTables) (i : Nat) (l : List Char) (d : Diag)
    (hd : d ∈ todoPart T i l) : ∃ s e,
      findWord T ("TODO".data) l = some (s, e) ∧
      d = ⟨i, s, i, e, todoMsg, 3, srcTag⟩ := by
  rcases todoPart_eq T i l with h | ⟨s, e, hf, h⟩
  · rw [h] at hd; cases hd
  · rw [h] at hd
    rcases List.mem_singleton.1 hd with rfl
    exact ⟨s, e, hf, rfl⟩

theorem mem_fixmePart (T : CharTables) (i : Nat) (l : List Char) (d : Diag)
    (hd : d ∈ fixmePart T i l) : ∃ s e,
      findWord T ("FIXME".data) l = some (s, e) ∧
      d = ⟨i, s, i, e, fixmeMsg, 2, srcTag⟩ := by
  rcases fixmePart_eq T i l with h | ⟨s, e, hf, h⟩
  · rw [h] at hd; cases hd
  · rw [h] at hd
    rcases List.mem_singleton.1 hd with rfl
    exact ⟨s, e, hf, rfl⟩

theorem mem_lenPart (i : Nat) (l : List Char) (d : Diag)
    (hd : d ∈ lenPart i l) : 120 < l.length ∧
      d = ⟨i, 120, i, l.length, lenMsg l.length, 2, srcTag⟩ := by
  unfold lenPart at hd
  by_cases h : 120 < l.length
  · rw [if_pos h] at hd
    exact ⟨h, List.mem_singleton.1 hd⟩
  · rw [if_neg h] at hd; cases hd

theorem mem_dupPart (T : CharTables) (i : Nat) (l prev : List Char)
    (d : Diag) (hd : d ∈ dupPart T i l prev) :
    (0 < i ∧ pyStrip T l ≠ [] ∧ l = prev) ∧
      d = ⟨i, 0, i, l.length, dupMsg, 3, srcTag⟩ := by
  unfold dupPart at hd
  by_cases h : 0 < i ∧ pyStrip T l ≠ [] ∧ l = prev
  · rw [if_pos h] at hd
    exact ⟨h, List.mem_singleton.1 hd⟩
  · rw [if_neg h] at hd; cases hd

theorem mem_analyzeLine (T : CharTables) (lines : List (List Char))
    (i : Nat) (d : Diag) (hd : d ∈ analyzeLine T lines i) :
    d.startLine = i ∧ d.endLine = i := by
  unfold analyzeLine at hd
  rcases List.mem_append.1 hd with h | h
  · rcases List.mem_append.1 h with h | h
    · rcases List.mem_append.1 h with h | h
      · rcases mem_todoPart _ _ _ _ h with ⟨s, e, _, rfl⟩; exact ⟨rfl, rfl⟩
      · rcases mem_fixmePart _ _ _ _ h with ⟨s, e, _, rfl⟩; exact ⟨rfl, rfl⟩
    · rcases mem_lenPart _ _ _ h with ⟨_, rfl⟩; exact ⟨rfl, rfl⟩
  · rcases mem_dupPart _ _ _ _ _ h with ⟨_, rfl⟩; exact ⟨rfl, rfl⟩

/-! ### The word matcher -/

theorem icMatches_length (T : CharTables) :
    ∀ w cs, icMatches T w cs = true → w.length ≤ cs.length := by
  intro w
  induction w with
  | nil => intro cs _; simp
  | cons p ps ih =>
    intro cs h
    cases cs with
    | nil => simp [icMatches] at h
    | cons c cs' =>
      rw [icMatches, Bool.and_eq_true] at h
      have := ih cs' h.2
      simp only [List.length_cons]
      omega

theorem isMatchAt_le (T : CharTables) (w l : List Char) (i : Nat)
    (hw : w ≠ []) (h : isMatchAt T w l i = true) :
    i + w.length ≤ l.length := by
  unfold isMatchAt at h
  rw [Bool.and_eq_true, Bool.and_eq_true] at h
  have h1 := icMatches_length T w (l.drop i) h.1.1
  rw [List.length_drop] at h1
  have h2 : 0 < w.length := List.length_pos.2 hw
  omega

theorem firstMatchAux_sound (p : Nat → Bool) :
    ∀ fuel i k, firstMatchAux p i fuel = some k →
      p k = true ∧ i ≤ k ∧ ∀ j, i ≤ j → j < k → p j = false := by
  intro fuel
  induction fuel with
  | zero => intro i k h; simp [firstMatchAux] at h
  | succ f ih =>
    intro i k h
    unfold firstMatchAux at h
    by_cases hp : p i = true
    · rw [if_pos hp] at h
      injection h with h
      subst h
      exact ⟨hp, le_rfl,
        fun j hj1 hj2 => absurd (lt_of_le_of_lt hj1 hj2) (lt_irrefl _)⟩
    · rw [if_neg hp] at h
      rcases ih (i + 1) k h with ⟨h1, h2, h3⟩
      refine ⟨h1, by omega, fun j hj1 hj2 => ?_⟩
      by_cases hji : j = i
      · subst hji; exact Bool.not_eq_true _ ▸ (eq_false_of_ne_true hp)
      · exact h3 j (by omega) hj2

theorem firstMatchAux_none (p : Nat → Bool) :
    ∀ fuel i, firstMatchAux p i fuel = none →
      ∀ j, i ≤ j → j < i + fuel → p j = false := by
  intro fuel
  induction fuel with
  | zero => intro i _ j hj1 hj2; omega
  | succ f ih =>
    intro i h j hj1 hj2
    unfold firstMatchAux at h
    by_cases hp : p i = true
    · rw [if_pos hp] at h; cases h
    · rw [if_neg hp] at h
      by_cases hji : j = i
      · subst hji; exact eq_false_of_ne_true hp
      · exact ih (i + 1) h j (by omega) (by omega)

theorem findWord_sound (T : CharTables) (w l : List Char) (s e : Nat)
    (h : findWord T w l = some (s, e)) :
    isMatchAt T w l s = true ∧ e = s + w.length ∧
      ∀ j, isMatchAt T w l j = true → s ≤ j := by
  unfold findWord at h
  cases hfm : firstMatchAux (fun i => isMatchAt T w l i) 0 (l.length + 1)
    with
  | none => rw [hfm] at h; cases h
  | some k =>
    rw [hfm] at h
    injection h with h
    have h1 : k = s := congrArg Prod.fst h
    have h2 : k + w.length = e := congrArg Prod.snd h
    subst h1
    subst h2
    rcases firstMatchAux_sound _ _ _ _ hfm with ⟨h1, _, h3⟩
    refine ⟨h1, rfl, fun j hj => ?_⟩
    by_contra hc
    exact absurd (h3 j (Nat.zero_le j) (by omega)) (by rw [hj]; simp)

theorem findWord_none (T : CharTables) (w l : List Char) (hw : w ≠ [])
    (h : findWord T w l = none) : ∀ j, isMatchAt T w l j = false := by
  unfold findWord at h
  cases hfm : firstMatchAux (fun i => isMatchAt T w l i) 0 (l.length + 1)
    with
  | some k => rw [hfm] at h; cases h
  | none =>
    intro j
    cases hj : isMatchAt T w l j with
    | false => rfl
    | true =>
      have hle := isMatchAt_le T w l j hw hj
      have h2 : 0 < w.length := List.length_pos.2 hw
      have := firstMatchAux_none _ _ _ hfm j (Nat.zero_le j) (by omega)
      rw [hj] at this; cases this

theorem countMatches_one (T : CharTables) (w l : List Char) (hw : w ≠ [])
    (h : countMatches T w l = 1) :
    ∃ s, isMatchAt T w l s = true ∧
      (∀ j, isMatchAt T w l j = true → j = s) ∧
      findWord T w l = some (s, s + w.length) := by
  unfold countMatches at h
  obtain ⟨s, hs⟩ : ∃ s,
      (List.range (l.length + 1)).filter
        (fun i => isMatchAt T w l i) = [s] := by
    match hh : (List.range (l.length + 1)).filter
        (fun i => isMatchAt T w l i) with
    | [] => rw [hh] at h; simp at h
    | [s] => exact ⟨s, rfl⟩
    | _ :: _ :: _ => rw [hh] at h; simp at h
  have hsP : isMatchAt T w l s = true := by
    have : s ∈ (List.range (l.length + 1)).filter
        (fun i => isMatchAt T w l i) := by rw [hs]; simp
    exact (List.mem_filter.1 this).2
  have huniq : ∀ j, isMatchAt T w l j = true → j = s := by
    intro j hj
    have hle := isMatchAt_le T w l j hw hj
    have h2 : 0 < w.length := List.length_pos.2 hw
    have hmem : j ∈ (List.range (l.length + 1)).filter
        (fun i => isMatchAt T w l i) := by
      refine List.mem_filter.2 ⟨List.mem_range.2 (by omega), hj⟩
    rw [hs] at hmem
    exact List.mem_singleton.1 hmem
  refine ⟨s, hsP, huniq, ?_⟩
  cases hfw : findWord T w l with
  | none => exact absurd (findWord_none T w l hw hfw s) (by rw [hsP]; simp)
  | some p =>
    obtain ⟨a, b⟩ := p
    rcases findWord_sound T w l a b hfw with ⟨h1, h2, _⟩
    have : a = s := huniq a h1
    subst this
    rw [h2]

/-! ### Locating one line's diagnostics inside the full output -/

theorem diagKind_todo (a b c : Nat) :
    diagKind ⟨a, b, a, c, todoMsg, 3, srcTag⟩ = 0 := by
  simp [diagKind]

theorem diagKind_fixme (a b c : Nat) :
    diagKind ⟨a, b, a, c, fixmeMsg, 2, srcTag⟩ = 1 := by
  have h : fixmeMsg ≠ todoMsg := by decide
  simp [diagKind, h]

theorem diagKind_dup (a b c : Nat) :
    diagKind ⟨a, b, a, c, dupMsg, 3, srcTag⟩ = 3 := by
  have h1 : dupMsg ≠ todoMsg := by decide
  have h2 : dupMsg ≠ fixmeMsg := by decide
  simp [diagKind, h1, h2]

theorem filter_analyzeLines (T : CharTables) (lines : List (List Char))
    (i : Nat) (P : Diag → Bool) :
    (analyzeLines T lines).filter
      (fun d => decide (d.startLine = i) && P d) =
      if i < lines.length then (analyzeLine T lines i).filter P
      else [] := by
  unfold analyzeLines
  have key : ∀ idxs : List Nat, idxs.Nodup →
      ((idxs.flatMap (analyzeLine T lines)).filter
        (fun d => decide (d.startLine = i) && P d)) =
        if i ∈ idxs then (analyzeLine T lines i).filter P else [] := by
    intro idxs
    induction idxs with
    | nil => intro _; simp
    | cons j rest ih =>
      intro hnd
      rw [List.flatMap_cons, List.filter_append]
      rcases List.nodup_cons.1 hnd with ⟨hj, hrest⟩
      by_cases hji : j = i
      · subst hji
        have hbatch : (analyzeLine T lines j).filter
            (fun d => decide (d.startLine = j) && P d) =
            (analyzeLine T lines j).filter P := by
          apply List.filter_congr
          intro d hd
          rcases mem_analyzeLine T lines j d hd with ⟨h1, _⟩
          simp [h1]
        have hrest0 : ((rest.flatMap (analyzeLine T lines)).filter
            (fun d => decide (d.startLine = j) && P d)) = [] := by
          rw [ih hrest, if_neg hj]
        rw [hbatch, hrest0, List.append_nil, if_pos (by simp)]
      · have hbatch : (analyzeLine T lines j).filter
            (fun d => decide (d.startLine = i) && P d) = [] := by
          apply List.filter_eq_nil_iff.2
          intro d hd
          rcases mem_analyzeLine T lines j d hd with ⟨h1, _⟩
          simp [h1, hji]
        rw [hbatch, List.nil_append, ih hrest]
        by_cases hmem : i ∈ rest
        · rw [if_pos hmem, if_pos (by simp [hmem])]
        · rw [if_neg hmem, if_neg (by
            intro hc
            rcases List.mem_cons.1 hc with hc | hc
            · exact hji hc.symm
            · exact hmem hc)]
  rw [key (List.range lines.length) (List.nodup_range lines.length)]
  by_cases h : i < lines.length
  · rw [if_pos (List.mem_range.2 h), if_pos h]
  · rw [if_neg (fun hc => h (List.mem_range.1 hc)), if_neg h]

theorem todoPart_filter_not0 (T : CharTables) (i : Nat) (l : List Char)
    (P : Diag → Bool) (hP : ∀ a b c : Nat,
      P ⟨a, b, a, c, todoMsg, 3, srcTag⟩ = false) :
    (todoPart T i l).filter P = [] := by
  rcases todoPart_eq T i l with h | ⟨s, e, _, h⟩ <;> rw [h]
  · rfl
  · simp [List.filter_cons, hP]

theorem fixmePart_filter_not1 (T : CharTables) (i : Nat) (l : List Char)
    (P : Diag → Bool) (hP : ∀ a b c : Nat,
      P ⟨a, b, a, c, fixmeMsg, 2, srcTag⟩ = false) :
    (fixmePart T i l).filter P = [] := by
  rcases fixmePart_eq T i l with h | ⟨s, e, _, h⟩ <;> rw [h]
  · rfl
  · simp [List.filter_cons, hP]

theorem lenPart_filter_not2 (i : Nat) (l : List Char) (P : Diag → Bool)
    (hP : ∀ a b c n : Nat, P ⟨a, b, a, c, lenMsg n, 2, srcTag⟩ = false) :
    (lenPart i l).filter P = [] := by
  unfold lenPart
  by_cases h : 120 < l.length
  · rw [if_pos h]; simp [List.filter_cons, hP]
  · rw [if_neg h]; rfl

theorem dupPart_filter_not3 (T : CharTables) (i : Nat) (l prev : List Char)
    (P : Diag → Bool) (hP : ∀ a b c : Nat,
      P ⟨a, b, a, c, dupMsg, 3, srcTag⟩ = false) :
    (dupPart T i l prev).filter P = [] := by
  unfold dupPart
  by_cases h : 0 < i ∧ pyStrip T l ≠ [] ∧ l = prev
  · rw [if_pos h]; simp [List.filter_cons, hP]
  · rw [if_neg h]; rfl

/-- C4: for every document text and every line index, the line-length
check of `analyze` (the diagnostics whose message is none of the three
fixed marker messages, i.e. `diagKind 2`) fires exactly once on a line of
more than 120 characters — with severity 2 (Warning), range spanning
columns 120 to the line length on that line, and a message embedding the
actual character count — and fires never on a line of at most 120
characters. -/
theorem c4_line_length (T : CharTables) (text : String) (i : Nat) :
    ((analyze T text).filter
        (fun d => decide (d.startLine = i) && decide (diagKind d = 2)) =
      if 120 < ((splitNl text.data).getD i []).length then
        [⟨i, 120, i, ((splitNl text.data).getD i []).length,
          lenMsg ((splitNl text.data).getD i []).length, 2, srcTag⟩]
      else []) ∧
    natToDec ((splitNl text.data).getD i []).length <:+:
      (lenMsg ((splitNl text.data).getD i []).length).data := by
  constructor
  · unfold analyze
    rw [filter_analyzeLines]
    by_cases h : i < (splitNl text.data).length
    · rw [if_pos h]
      show (analyzeLine T (splitNl text.data) i).filter
        (fun d => decide (diagKind d = 2)) = _
      unfold analyzeLine
      rw [List.filter_append, List.filter_append, List.filter_append]
      rw [todoPart_filter_not0 _ _ _ _
        (fun a b c => by simp [diagKind_todo])]
      rw [fixmePart_filter_not1 _ _ _ _
        (fun a b c => by simp [diagKind_fixme])]
      rw [dupPart_filter_not3 _ _ _ _ _
        (fun a b c => by simp [diagKind_dup])]
      rw [List.nil_append, List.append_nil]
      unfold lenPart
      by_cases hl : 120 < ((splitNl text.data).getD i []).length
      · rw [if_pos hl]
        simp [List.filter_cons, diagKind_lenPart]
      · rw [if_neg hl]; rfl
    · rw [if_neg h]
      have h0 : (splitNl text.data).getD i [] = [] :=
        List.getD_eq_default _ _ (by omega)
      rw [h0]
      simp
  · exact ⟨"Line too long (".data, " > 120 characters)".data,
      (lenMsg_data _).symm⟩

/-- C5: for every document text and every line index `i`, the
duplicate-line check of `analyze` (`diagKind 3`) fires — with severity 3
(Information) and range spanning the whole line — exactly when `i > 0`,
line `i` is non-blank after trimming, and line `i` is verbatim equal to
line `i - 1`; in particular identical blank consecutive lines produce no
duplicate diagnostic, and the first line of an identical pair gets none
unless it also duplicates its own predecessor. -/
theorem c5_duplicate_line (T : CharTables) (text : String) (i : Nat) :
    (analyze T text).filter
        (fun d => decide (d.startLine = i) && decide (diagKind d = 3)) =
      if 0 < i ∧ pyStrip T ((splitNl text.data).getD i []) ≠ [] ∧
          (splitNl text.data).getD i [] =
            (splitNl text.data).getD (i - 1) [] then
        [⟨i, 0, i, ((splitNl text.data).getD i []).length, dupMsg, 3,
          srcTag⟩]
      else [] := by
  unfold analyze
  rw [filter_analyzeLines]
  by_cases h : i < (splitNl text.data).length
  · rw [if_pos h]
    show (analyzeLine T (splitNl text.data) i).filter
      (fun d => decide (diagKind d = 3)) = _
    unfold analyzeLine
    rw [List.filter_append, List.filter_append, List.filter_append]
    rw [todoPart_filter_not0 _ _ _ _
      (fun a b c => by simp [diagKind_todo])]
    rw [fixmePart_filter_not1 _ _ _ _
      (fun a b c => by simp [diagKind_fixme])]
    rw [lenPart_filter_not2 _ _ _
      (fun a b c n => by simp [diagKind_lenPart])]
    rw [List.nil_append, List.nil_append, List.nil_append]
    unfold dupPart
    by_cases hc : 0 < i ∧ pyStrip T ((splitNl text.data).getD i []) ≠ [] ∧
        (splitNl text.data).getD i [] = (splitNl text.data).getD (i - 1) []
    · rw [if_pos hc]
      simp [List.filter_cons, diagKind_dup]
    · rw [if_neg hc]; rfl
  · rw [if_neg h]
    have h0 : (splitNl text.data).getD i [] = [] :=
      List.getD_eq_default _ _ (by omega)
    rw [h0]
    have hstrip : pyStrip T ([] : List Char) = [] := rfl
    rw [if_neg (by intro hc; exact hc.2.1 hstrip)]

/-! ### Output order -/

theorem mem_todoPart_kind (T : CharTables) (i : Nat) (l : List Char)
    (d : Diag) (hd : d ∈ todoPart T i l) :
    d.startLine = i ∧ diagKind d = 0 := by
  rcases mem_todoPart T i l d hd with ⟨s, e, _, rfl⟩
  exact ⟨rfl, diagKind_todo i s e⟩

theorem mem_fixmePart_kind (T : CharTables) (i : Nat) (l : List Char)
    (d : Diag) (hd : d ∈ fixmePart T i l) :
    d.startLine = i ∧ diagKind d = 1 := by
  rcases mem_fixmePart T i l d hd with ⟨s, e, _, rfl⟩
  exact ⟨rfl, diagKind_fixme i s e⟩

theorem mem_lenPart_kind (i : Nat) (l : List Char) (d : Diag)
    (hd : d ∈ lenPart i l) : d.startLine = i ∧ diagKind d = 2 := by
  rcases mem_lenPart i l d hd with ⟨_, rfl⟩
  exact ⟨rfl, diagKind_lenPart l.length i 120 l.length⟩

theorem mem_dupPart_kind (T : CharTables) (i : Nat) (l prev : List Char)
    (d : Diag) (hd : d ∈ dupPart T i l prev) :
    d.startLine = i ∧ diagKind d = 3 := by
  rcases mem_dupPart T i l prev d hd with ⟨_, rfl⟩
  exact ⟨rfl, diagKind_dup i 0 l.length⟩

theorem pairwise_len_le_one {α : Type} (R : α → α → Prop) (l : List α)
    (h : l.length ≤ 1) : l.Pairwise R := by
  match l with
  | [] => exact List.Pairwise.nil
  | [a] => exact List.pairwise_singleton R a
  | a :: b :: t => simp at h

theorem todoPart_len (T : CharTables) (i : Nat) (l : List Char) :
    (todoPart T i l).length ≤ 1 := by
  rcases todoPart_eq T i l with h | ⟨s, e, _, h⟩ <;> rw [h] <;> simp

theorem fixmePart_len (T : CharTables) (i : Nat) (l : List Char) :
    (fixmePart T i l).length ≤ 1 := by
  rcases fixmePart_eq T i l with h | ⟨s, e, _, h⟩ <;> rw [h] <;> simp

theorem lenPart_len (i : Nat) (l : List Char) :
    (lenPart i l).length ≤ 1 := by
  unfold lenPart
  by_cases h : 120 < l.length
  · rw [if_pos h]; simp
  · rw [if_neg h]; simp

theorem dupPart_len (T : CharTables) (i : Nat) (l prev : List Char) :
    (dupPart T i l prev).length ≤ 1 := by
  unfold dupPart
  by_cases h : 0 < i ∧ pyStrip T l ≠ [] ∧ l = prev
  · rw [if_pos h]; simp
  · rw [if_neg h]; simp

theorem analyzeLine_pairwise (T : CharTables) (lines : List (List Char))
    (i : Nat) : (analyzeLine T lines i).Pairwise
      (fun a b => a.startLine < b.startLine ∨
        (a.startLine = b.startLine ∧ diagKind a < diagKind b)) := by
  unfold analyzeLine
  refine List.pairwise_append.2 ⟨?_, ?_, ?_⟩
  · refine List.pairwise_append.2 ⟨?_, ?_, ?_⟩
    · refine List.pairwise_append.2 ⟨?_, ?_, ?_⟩
      · exact pairwise_len_le_one _ _ (todoPart_len T i _)
      · exact pairwise_len_le_one _ _ (fixmePart_len T i _)
      · intro a ha b hb
        rcases mem_todoPart_kind T i _ a ha with ⟨ha1, ha2⟩
        rcases mem_fixmePart_kind T i _ b hb with ⟨hb1, hb2⟩
        exact Or.inr ⟨ha1.trans hb1.symm, by omega⟩
    · exact pairwise_len_le_one _ _ (lenPart_len i _)
    · intro a ha b hb
      rcases mem_lenPart_kind i _ b hb with ⟨hb1, hb2⟩
      rcases List.mem_append.1 ha with ha | ha
      · rcases mem_todoPart_kind T i _ a ha with ⟨ha1, ha2⟩
        exact Or.inr ⟨ha1.trans hb1.symm, by omega⟩
      · rcases mem_fixmePart_kind T i _ a ha with ⟨ha1, ha2⟩
        exact Or.inr ⟨ha1.trans hb1.symm, by omega⟩
  · exact pairwise_len_le_one _ _ (dupPart_len T i _ _)
  · intro a ha b hb
    rcases mem_dupPart_kind T i _ _ b hb with ⟨hb1, hb2⟩
    rcases List.mem_append.1 ha with ha | ha
    · rcases List.mem_append.1 ha with ha | ha
      · rcases mem_todoPart_kind T i _ a ha with ⟨ha1, ha2⟩
        exact Or.inr ⟨ha1.trans hb1.symm, by omega⟩
      · rcases mem_fixmePart_kind T i _ a ha with ⟨ha1, ha2⟩
        exact Or.inr ⟨ha1.trans hb1.symm, by omega⟩
    · rcases mem_lenPart_kind i _ a ha with ⟨ha1, ha2⟩
      exact Or.inr ⟨ha1.trans hb1.symm, by omega⟩

theorem flatMap_analyzeLine_pairwise (T : CharTables)
    (lines : List (List Char)) :
    ∀ idxs : List Nat, idxs.Pairwise (· < ·) →
      (idxs.flatMap (analyzeLine T lines)).Pairwise
        (fun a b => a.startLine < b.startLine ∨
          (a.startLine = b.startLine ∧ diagKind a < diagKind b)) := by
  intro idxs
  induction idxs with
  | nil => intro _; simp
  | cons j rest ih =>
    intro hp
    rw [List.flatMap_cons]
    rcases List.pairwise_cons.1 hp with ⟨hj, hrest⟩
    refine List.pairwise_append.2
      ⟨analyzeLine_pairwise T lines j, ih hrest, ?_⟩
    intro a ha b hb
    rcases List.mem_flatMap.1 hb with ⟨j2, hj2, hb2⟩
    have h1 := (mem_analyzeLine T lines j a ha).1
    have h2 := (mem_analyzeLine T lines j2 b hb2).1
    exact Or.inl (by rw [h1, h2]; exact hj j2 hj2)

/-- C6: for every document text, the diagnostics of `analyze` come out
sorted by ascending start line, and within one line in the fixed check
order TODO (`diagKind 0`), FIXME (`1`), line-length (`2`),
duplicate-line (`3`). -/
theorem c6_output_order (T : CharTables) (text : String) :
    (analyze T text).Pairwise
      (fun a b => a.startLine < b.startLine ∨
        (a.startLine = b.startLine ∧ diagKind a < diagKind b)) := by
  unfold analyze analyzeLines
  exact flatMap_analyzeLine_pairwise T (splitNl text.data) _
    (List.pairwise_lt_range _)

/-! ### The marker checks fire at most once per line, at the first match -/

theorem analyzeLine_filter_kind0 (T : CharTables)
    (lines : List (List Char)) (i : Nat) :
    (analyzeLine T lines i).filter (fun d => decide (diagKind d = 0)) =
      todoPart T i (lines.getD i []) := by
  unfold analyzeLine
  rw [List.filter_append, List.filter_append, List.filter_append]
  rw [fixmePart_filter_not1 _ _ _ _
    (fun a b c => by simp [diagKind_fixme])]
  rw [lenPart_filter_not2 _ _ _
    (fun a b c n => by simp [diagKind_lenPart])]
  rw [dupPart_filter_not3 _ _ _ _ _
    (fun a b c => by simp [diagKind_dup])]
  rw [List.append_nil, List.append_nil, List.append_nil]
  apply List.filter_eq_self.2
  intro d hd
  simp [(mem_todoPart_kind T i _ d hd).2]

theorem analyzeLine_filter_kind1 (T : CharTables)
    (lines : List (List Char)) (i : Nat) :
    (analyzeLine T lines i).filter (fun d => decide (diagKind d = 1)) =
      fixmePart T i (lines.getD i []) := by
  unfold analyzeLine
  rw [List.filter_append, List.filter_append, List.filter_append]
  rw [todoPart_filter_not0 _ _ _ _
    (fun a b c => by simp [diagKind_todo])]
  rw [lenPart_filter_not2 _ _ _
    (fun a b c n => by simp [diagKind_lenPart])]
  rw [dupPart_filter_not3 _ _ _ _ _
    (fun a b c => by simp [diagKind_dup])]
  rw [List.nil_append, List.append_nil, List.append_nil]
  apply List.filter_eq_self.2
  intro d hd
  simp [(mem_fixmePart_kind T i _ d hd).2]

/-- C10: on every line of every text, the TODO check (`diagKind 0`) and
the FIXME check (`diagKind 1`) each emit at most one diagnostic, and any
diagnostic they emit sits at the leftmost whole-word occurrence of its
marker on that line (so additional occurrences yield no further
diagnostics). -/
theorem c10_first_match_only (T : CharTables) (text : String) (i : Nat) :
    (((analyze T text).filter (fun d =>
        decide (d.startLine = i) && decide (diagKind d = 0))).length ≤ 1 ∧
      ∀ d ∈ (analyze T text).filter (fun d =>
          decide (d.startLine = i) && decide (diagKind d = 0)),
        isMatchAt T ("TODO".data) ((splitNl text.data).getD i [])
            d.startChar = true ∧
        d.endChar = d.startChar + 4 ∧
        ∀ j, isMatchAt T ("TODO".data) ((splitNl text.data).getD i [])
            j = true → d.startChar ≤ j) ∧
    (((analyze T text).filter (fun d =>
        decide (d.startLine = i) && decide (diagKind d = 1))).length ≤ 1 ∧
      ∀ d ∈ (analyze T text).filter (fun d =>
          decide (d.startLine = i) && decide (diagKind d = 1)),
        isMatchAt T ("FIXME".data) ((splitNl text.data).getD i [])
            d.startChar = true ∧
        d.endChar = d.startChar + 5 ∧
        ∀ j, isMatchAt T ("FIXME".data) ((splitNl text.data).getD i [])
            j = true → d.startChar ≤ j) := by
  unfold analyze
  rw [filter_analyzeLines, filter_analyzeLines]
  by_cases h : i < (splitNl text.data).length
  · rw [if_pos h, if_pos h, analyzeLine_filter_kind0,
      analyzeLine_filter_kind1]
    refine ⟨⟨todoPart_len T i _, ?_⟩, fixmePart_len T i _, ?_⟩
    · intro d hd
      rcases mem_todoPart T i _ d hd with ⟨s, e, hfw, rfl⟩
      rcases findWord_sound T _ _ s e hfw with ⟨hm, he, hmin⟩
      exact ⟨hm, by rw [he]; rfl, hmin⟩
    · intro d hd
      rcases mem_fixmePart T i _ d hd with ⟨s, e, hfw, rfl⟩
      rcases findWord_sound T _ _ s e hfw with ⟨hm, he, hmin⟩
      exact ⟨hm, by rw [he]; rfl, hmin⟩
  · rw [if_neg h, if_neg h]
    exact ⟨⟨by simp, by simp⟩, by simp, by simp⟩

/-- C3: a line with exactly one whole-word TODO occurrence and exactly one
whole-word FIXME occurrence, of at most 120 characters and not verbatim
equal to its predecessor, receives exactly two diagnostics from `analyze`:
an Information (severity 3) TODO diagnostic followed by a Warning
(severity 2) FIXME diagnostic, each spanning exactly the matched word. -/
theorem c3_todo_fixme_line (T : CharTables) (text : String) (i : Nat)
    (h1 : countMatches T ("TODO".data)
      ((splitNl text.data).getD i []) = 1)
    (h2 : countMatches T ("FIXME".data)
      ((splitNl text.data).getD i []) = 1)
    (h3 : ((splitNl text.data).getD i []).length ≤ 120)
    (h4 : i = 0 ∨
      (splitNl text.data).getD i [] ≠ (splitNl text.data).getD (i - 1) []) :
    ∃ s1 s2,
      isMatchAt T ("TODO".data) ((splitNl text.data).getD i []) s1 =
        true ∧
      (∀ j, isMatchAt T ("TODO".data) ((splitNl text.data).getD i []) j =
        true → j = s1) ∧
      isMatchAt T ("FIXME".data) ((splitNl text.data).getD i []) s2 =
        true ∧
      (∀ j, isMatchAt T ("FIXME".data) ((splitNl text.data).getD i []) j =
        true → j = s2) ∧
      (analyze T text).filter (fun d => decide (d.startLine = i)) =
        [⟨i, s1, i, s1 + 4, todoMsg, 3, srcTag⟩,
         ⟨i, s2, i, s2 + 5, fixmeMsg, 2, srcTag⟩] := by
  rcases countMatches_one T _ _ (by decide) h1 with ⟨s1, hm1, hu1, hfw1⟩
  rcases countMatches_one T _ _ (by decide) h2 with ⟨s2, hm2, hu2, hfw2⟩
  refine ⟨s1, s2, hm1, hu1, hm2, hu2, ?_⟩
  have hll : 4 ≤ ((splitNl text.data).getD i []).length := by
    have := isMatchAt_le T _ _ s1 (by decide) hm1
    have h4' : ("TODO".data).length = 4 := rfl
    omega
  have hi : i < (splitNl text.data).length := by
    by_contra hc
    have h0 : (splitNl text.data).getD i [] = [] :=
      List.getD_eq_default _ _ (by omega)
    rw [h0] at hll
    simp at hll
  have hps : (fun d : Diag => decide (d.startLine = i)) =
      (fun d : Diag => decide (d.startLine = i) &&
        (fun _ : Diag => true) d) := by
    funext d
    simp
  unfold analyze
  rw [hps, filter_analyzeLines, if_pos hi]
  rw [List.filter_eq_self.2 (fun a _ => rfl)]
  simp only [analyzeLine, todoPart, fixmePart]
  rw [hfw1, hfw2]
  have hlen : ¬(120 < ((splitNl text.data).getD i []).length) := by omega
  have hdup : ¬(0 < i ∧
      pyStrip T ((splitNl text.data).getD i []) ≠ [] ∧
      (splitNl text.data).getD i [] =
        (splitNl text.data).getD (i - 1) []) := by
    rcases h4 with h4 | h4
    · intro hc; omega
    · intro hc; exact h4 hc.2.2
  unfold lenPart dupPart
  rw [if_neg hlen, if_neg hdup]
  simp

/-! ### Columns: code-point offsets versus UTF-16 offsets -/

theorem utf16Len_bmp (l : List Char) (h : ∀ c ∈ l, c.toNat < 65536) :
    utf16Len l = l.length := by
  induction l with
  | nil => rfl
  | cons c cs ih =>
    have hc : utf16Width c = 1 := by
      unfold utf16Width
      rw [if_pos (h c (by simp))]
    show utf16Width c + utf16Len cs = cs.length + 1
    rw [hc, ih (fun x hx => h x (by simp [hx]))]
    omega

theorem utf16Len_take_bmp (l : List Char) (k : Nat)
    (h : ∀ c ∈ l, c.toNat < 65536) (hk : k ≤ l.length) :
    utf16Len (l.take k) = k := by
  have hsub : ∀ c ∈ l.take k, c.toNat < 65536 :=
    fun c hc => h c (List.take_subset k l hc)
  rw [utf16Len_bmp _ hsub, List.length_take]
  omega

theorem analyzeLine_cols_le (T : CharTables) (lines : List (List Char))
    (i : Nat) (d : Diag) (hd : d ∈ analyzeLine T lines i) :
    d.startChar ≤ (lines.getD i []).length ∧
      d.endChar ≤ (lines.getD i []).length := by
  unfold analyzeLine at hd
  rcases List.mem_append.1 hd with h | h
  · rcases List.mem_append.1 h with h | h
    · rcases List.mem_append.1 h with h | h
      · rcases mem_todoPart _ _ _ _ h with ⟨s, e, hfw, rfl⟩
        rcases findWord_sound _ _ _ _ _ hfw with ⟨hm, he, _⟩
        have := isMatchAt_le T _ _ s (by decide) hm
        have h4 : ("TODO".data).length = 4 := rfl
        constructor
        · show s ≤ (lines.getD i []).length
          omega
        · show e ≤ (lines.getD i []).length
          omega
      · rcases mem_fixmePart _ _ _ _ h with ⟨s, e, hfw, rfl⟩
        rcases findWord_sound _ _ _ _ _ hfw with ⟨hm, he, _⟩
        have := isMatchAt_le T _ _ s (by decide) hm
        have h5 : ("FIXME".data).length = 5 := rfl
        constructor
        · show s ≤ (lines.getD i []).length
          omega
        · show e ≤ (lines.getD i []).length
          omega
    · rcases mem_lenPart _ _ _ h with ⟨hl, rfl⟩
      constructor
      · show 120 ≤ (lines.getD i []).length
        omega
      · show (lines.getD i []).length ≤ (lines.getD i []).length
        exact le_rfl
  · rcases mem_dupPart _ _ _ _ _ h with ⟨_, rfl⟩
    constructor
    · show 0 ≤ (lines.getD i []).length
      exact Nat.zero_le _
    · show (lines.getD i []).length ≤ (lines.getD i []).length
      exact le_rfl

/-- C2 (amended): `analyze` reports columns as Unicode code-point offsets
(Python string indices).  For every text all of whose characters lie in
the Basic Multilingual Plane these agree with UTF-16 code-unit offsets:
each diagnostic is single-line, and its start and end columns equal the
UTF-16 length of the line prefix they delimit.  (The unamended claim
fails on lines containing characters beyond the BMP; see the
counterexample.) -/
theorem c2_utf16_columns_bmp (T : CharTables) (text : String)
    (hbmp : ∀ l ∈ splitNl text.data, ∀ c ∈ l, c.toNat < 65536) :
    ∀ d ∈ analyze T text,
      d.endLine = d.startLine ∧
      d.startChar =
        utf16Len (((splitNl text.data).getD d.startLine []).take
          d.startChar) ∧
      d.endChar =
        utf16Len (((splitNl text.data).getD d.startLine []).take
          d.endChar) := by
  intro d hd
  unfold analyze analyzeLines at hd
  rcases List.mem_flatMap.1 hd with ⟨i, hi, hdi⟩
  have hiL : i < (splitNl text.data).length := List.mem_range.1 hi
  rcases mem_analyzeLine T _ i d hdi with ⟨hs, he⟩
  rcases analyzeLine_cols_le T _ i d hdi with ⟨hc1, hc2⟩
  have hmem : (splitNl text.data).getD i [] ∈ splitNl text.data := by
    rw [List.getD_eq_getElem _ _ hiL]
    exact List.getElem_mem hiL
  have hb := hbmp _ hmem
  subst hs
  refine ⟨he, ?_, ?_⟩
  · rw [utf16Len_take_bmp _ _ hb hc1]
  · rw [utf16Len_take_bmp _ _ hb hc2]

/-- C2 counterexample: on the single line `𝔸 TODO` (whose first character
lies outside the BMP and is a word character), the sole whole-word TODO
match sits at code-point offsets 2..6, and `analyze` reports exactly those
as columns — but the UTF-16 code-unit offsets of that same match are 3
and 7, so the columns are not UTF-16 offsets. -/
theorem c2_counterexample :
    (analyze ⟨fun _ => true, fun c => c, fun _ => false⟩ "𝔸 TODO").map
        (fun d => (d.startChar, d.endChar)) = [(2, 6)] ∧
    countMatches ⟨fun _ => true, fun c => c, fun _ => false⟩
      ("TODO".data) ("𝔸 TODO".data) = 1 ∧
    isMatchAt ⟨fun _ => true, fun c => c, fun _ => false⟩
      ("TODO".data) ("𝔸 TODO".data) 2 = true ∧
    utf16Len (("𝔸 TODO".data).take 2) = 3 ∧
    utf16Len (("𝔸 TODO".data).take 6) = 7 ∧
    (2 ≠ 3 ∧ 6 ≠ 7) := by
  exact ⟨by decide, by decide, by decide, by decide, by decide, by decide⟩

/-! ### Dispatch -/

/-- C7: a request whose method is not in the fixed request-handler table
`{initialize, shutdown}` is silently dropped by the dispatch layer: no
response message of any kind is sent and the server state is unchanged. -/
theorem c7_unknown_request_dropped (st : SState) (requestId : Json)
    (method : Json) (params : Json)
    (h1 : method ≠ Json.str "initialize")
    (h2 : method ≠ Json.str "shutdown") :
    handleRequest st requestId method params = (st, []) := by
  unfold handleRequest
  rw [if_neg h1, if_neg h2]

/-- Closed instance of the C7 theorem at a concrete unknown method. -/
theorem c7_unknown_request_dropped_witness :
    (Json.str "textDocument/hover" ≠ Json.str "initialize") ∧
    (Json.str "textDocument/hover" ≠ Json.str "shutdown") ∧
    handleRequest initState (Json.num 7)
      (Json.str "textDocument/hover") (Json.obj []) = (initState, []) :=
  ⟨by decide, by decide,
    c7_unknown_request_dropped initState (Json.num 7)
      (Json.str "textDocument/hover") (Json.obj [])
      (by decide) (by decide)⟩

/-- C9: handling a `textDocument/didChange` notification whose
`contentChanges` list is empty is a complete no-op at the interface: the
document map (whatever it holds for any URI) is untouched and no
`publishDiagnostics` notification — indeed no message at all — is sent. -/
theorem c9_empty_didchange_noop (T : CharTables) (st : SState)
    (pkvs : List (String × Json))
    (h : jGetD pkvs "contentChanges" (Json.arr []) = Json.arr []) :
    handleDidChange T st (Json.obj pkvs) = (st, []) := by
  show (match jGetD pkvs "textDocument" (Json.obj []) with
    | Json.obj tdkvs =>
      let uri := jGetOpt tdkvs "uri"
      let contentChanges := jGetD pkvs "contentChanges" (Json.arr [])
      if pyTruthy contentChanges then
        match contentChanges with
        | Json.arr (c0 :: _) =>
          match c0 with
          | Json.obj ckvs =>
            let text := jGetD ckvs "text" (Json.str "")
            let docs := docSet st.documents uri text
            match text with
            | Json.str s =>
              ({ st with documents := docs },
                [publishNote uri (analyze T s)])
            | _ => ({ st with documents := docs }, [])
          | _ => (st, [])
        | _ => (st, [])
      else (st, [])
    | _ => (st, [])) = (st, [])
  cases jGetD pkvs "textDocument" (Json.obj []) with
  | obj tdkvs => rw [h]; rfl
  | null => rfl
  | bool b => rfl
  | num n => rfl
  | str s => rfl
  | arr xs => rfl

/-- Closed instance of the C9 theorem: empty `contentChanges` on a state
holding one open document. -/
theorem c9_empty_didchange_noop_witness :
    (jGetD [("textDocument", Json.obj [("uri", Json.str "file:///a")]),
        ("contentChanges", Json.arr [])] "contentChanges" (Json.arr []) =
      Json.arr []) ∧
    handleDidChange asciiTables
      { documents := [(some (Json.str "file:///a"), Json.str "x")],
        running := true, initialized := true }
      (Json.obj [("textDocument", Json.obj [("uri", Json.str "file:///a")]),
        ("contentChanges", Json.arr [])]) =
      ({ documents := [(some (Json.str "file:///a"), Json.str "x")],
         running := true, initialized := true }, []) :=
  ⟨by decide,
    c9_empty_didchange_noop asciiTables
      { documents := [(some (Json.str "file:///a"), Json.str "x")],
        running := true, initialized := true }
      [("textDocument", Json.obj [("uri", Json.str "file:///a")]),
        ("contentChanges", Json.arr [])] (by decide)⟩

/-! ### List and digit toolbox for the round-trip proof -/

theorem dropWhile_append_all (p : Char → Bool) (l1 l2 : List Char)
    (h : ∀ c ∈ l1, p c = true) :
    (l1 ++ l2).dropWhile p = l2.dropWhile p := by
  induction l1 with
  | nil => rfl
  | cons c t ih =>
    simp only [List.cons_append, List.dropWhile_cons, h c (by simp),
      if_pos]
    exact ih (fun x hx => h x (by simp [hx]))

theorem takeWhile_append_all (p : Char → Bool) (l1 l2 : List Char)
    (h : ∀ c ∈ l1, p c = true) :
    (l1 ++ l2).takeWhile p = l1 ++ l2.takeWhile p := by
  induction l1 with
  | nil => rfl
  | cons c t ih =>
    simp only [List.cons_append, List.takeWhile_cons, h c (by simp),
      if_pos]
    rw [ih (fun x hx => h x (by simp [hx]))]

theorem dropWhile_cons_false (p : Char → Bool) (c : Char) (t : List Char)
    (h : p c = false) : (c :: t).dropWhile p = c :: t := by
  simp [List.dropWhile_cons, h]

theorem takeWhile_cons_false (p : Char → Bool) (c : Char) (t : List Char)
    (h : p c = false) : (c :: t).takeWhile p = [] := by
  simp [List.takeWhile_cons, h]

theorem dropWhile_all_false (p : Char → Bool) (l : List Char)
    (h : ∀ c ∈ l, p c = false) : l.dropWhile p = l := by
  cases l with
  | nil => rfl
  | cons c t => exact dropWhile_cons_false p c t (h c (by simp))

theorem isDigit_toNat (c : Char) (h : c.isDigit = true) :
    48 ≤ c.toNat ∧ c.toNat ≤ 57 := by
  simp [Char.isDigit] at h
  exact ⟨h.1, h.2⟩

theorem pyIsSpace_of_isDigit (T : CharTables) (c : Char)
    (h : c.isDigit = true) : pyIsSpace T c = false := by
  rcases isDigit_toNat c h with ⟨h1, h2⟩
  unfold pyIsSpace
  rw [if_pos (by omega)]
  simp only [Bool.or_eq_false_iff]
  refine ⟨⟨⟨⟨⟨?_, ?_⟩, ?_⟩, ?_⟩, ?_⟩, ?_⟩ <;> simp [Nat.beq_eq_true_eq] <;>
    omega

theorem pyStrip_no_space (T : CharTables) (l : List Char)
    (h : ∀ c ∈ l, pyIsSpace T c = false) : pyStrip T l = l := by
  unfold pyStrip
  rw [dropWhile_all_false _ _ h,
    dropWhile_all_false _ _ (fun c hc => h c (List.mem_reverse.1 hc)),
    List.reverse_reverse]

theorem jsonWs_of_isDigit (c : Char) (h : c.isDigit = true) :
    jsonWs c = false := by
  rcases isDigit_toNat c h with ⟨h1, h2⟩
  unfold jsonWs
  simp only [Bool.or_eq_false_iff]
  refine ⟨⟨⟨?_, ?_⟩, ?_⟩, ?_⟩ <;> simp [Nat.beq_eq_true_eq] <;> omega

theorem skipWs_cons_not_ws (c : Char) (t : List Char)
    (h : jsonWs c = false) : skipWs (c :: t) = c :: t :=
  dropWhile_cons_false _ c t h

/-! digits and the decimal printer -/

theorem char_toNat_ofNat (n : Nat) (h : n.isValidChar) :
    (Char.ofNat n).toNat = n := by
  unfold Char.ofNat
  rw [dif_pos h]
  rfl

theorem digitChar_toNat (n : Nat) (h : n < 10) :
    (digitChar n).toNat = 48 + n := by
  unfold digitChar
  exact char_toNat_ofNat (48 + n) (Or.inl (by omega))

theorem digitChar_isDigit (n : Nat) (h : n < 10) :
    (digitChar n).isDigit = true := by
  have h1 := digitChar_toNat n h
  simp only [Char.isDigit]
  have h0 : ('0').toNat = 48 := rfl
  have h9 : ('9').toNat = 57 := rfl
  rw [Bool.and_eq_true, decide_eq_true_iff, decide_eq_true_iff]
  constructor
  · show ('0').toNat ≤ (digitChar n).toNat
    omega
  · show (digitChar n).toNat ≤ ('9').toNat
    omega

theorem natToDecAux_stable (n : Nat) : ∀ f1 f2, n < f1 → n < f2 →
    natToDecAux f1 n = natToDecAux f2 n := by
  induction n using Nat.strong_induction_on with
  | _ n ih =>
    intro f1 f2 h1 h2
    match f1, f2 with
    | g1 + 1, g2 + 1 =>
      by_cases hn : n < 10
      · simp [natToDecAux, hn]
      · simp only [natToDecAux, if_neg hn]
        rw [ih (n / 10) (by omega) g1 g2 (by omega) (by omega)]

theorem natToDec_big (n : Nat) (h : ¬ n < 10) :
    natToDec n = natToDec (n / 10) ++ [digitChar (n % 10)] := by
  unfold natToDec
  show natToDecAux (n + 1) n = _
  rw [show natToDecAux (n + 1) n =
    if n < 10 then [digitChar n] else
      natToDecAux n (n / 10) ++ [digitChar (n % 10)] from rfl]
  rw [if_neg h, natToDecAux_stable (n / 10) n (n / 10 + 1) (by omega)
    (by omega)]

theorem natToDec_small (n : Nat) (h : n < 10) :
    natToDec n = [digitChar n] := by
  unfold natToDec
  show (if n < 10 then [digitChar n] else _) = _
  rw [if_pos h]

theorem natToDec_all_digits (n : Nat) :
    ∀ c ∈ natToDec n, c.isDigit = true := by
  induction n using Nat.strong_induction_on with
  | _ n ih =>
    by_cases hn : n < 10
    · rw [natToDec_small n hn]
      intro c hc
      rw [List.mem_singleton.1 hc]
      exact digitChar_isDigit n hn
    · rw [natToDec_big n hn]
      intro c hc
      rcases List.mem_append.1 hc with hc | hc
      · exact ih (n / 10) (by omega) c hc
      · rw [List.mem_singleton.1 hc]
        exact digitChar_isDigit (n % 10) (by omega)

theorem natToDec_ne_nil (n : Nat) : natToDec n ≠ [] := by
  by_cases hn : n < 10
  · rw [natToDec_small n hn]; simp
  · rw [natToDec_big n hn]; simp

theorem decVal_append_one (l : List Char) (c : Char) :
    decVal (l ++ [c]) = decVal l * 10 + (c.toNat - 48) := by
  unfold decVal
  rw [List.foldl_append]
  rfl

theorem decVal_natToDec (n : Nat) : decVal (natToDec n) = n := by
  induction n using Nat.strong_induction_on with
  | _ n ih =>
    by_cases hn : n < 10
    · rw [natToDec_small n hn]
      show 0 * 10 + ((digitChar n).toNat - 48) = n
      rw [digitChar_toNat n hn]
      omega
    · rw [natToDec_big n hn, decVal_append_one, ih (n / 10) (by omega),
        digitChar_toNat (n % 10) (by omega)]
      omega

theorem natToDec_head_big (n : Nat) (h : 0 < n) :
    ∃ c t, natToDec n = c :: t ∧ c.isDigit = true ∧ c ≠ '0' := by
  induction n using Nat.strong_induction_on with
  | _ n ih =>
    by_cases hn : n < 10
    · refine ⟨digitChar n, [], natToDec_small n hn,
        digitChar_isDigit n hn, ?_⟩
      intro hc
      have := congrArg Char.toNat hc
      rw [digitChar_toNat n hn] at this
      have h0 : ('0').toNat = 48 := rfl
      omega
    · rcases ih (n / 10) (by omega) (by omega) with ⟨c, t, h1, h2, h3⟩
      exact ⟨c, t ++ [digitChar (n % 10)], by
        rw [natToDec_big n hn, h1]; rfl, h2, h3⟩

/-! the serialized integer parses back -/

theorem isDigit_ne_zero_char (c : Char) (h : c.isDigit = true) :
    ¬ c = '-' ∧ ¬ c = '+' := by
  rcases isDigit_toNat c h with ⟨h1, h2⟩
  constructor <;> intro hc <;> subst hc <;> simp at h1 h2

theorem pNatTail_natToDec (n : Nat) (rest : List Char)
    (hrest : goodTail rest = true) :
    pNatTail (natToDec n ++ rest) = some (n, rest) := by
  have tail_take : rest.takeWhile Char.isDigit = [] ∧
      rest.dropWhile Char.isDigit = rest := by
    cases rest with
    | nil => exact ⟨rfl, rfl⟩
    | cons r rs =>
      have hr : r.isDigit = false := by
        unfold goodTail at hrest
        simp only [Bool.and_eq_true, Bool.not_eq_true'] at hrest
        exact hrest.1.1.1
      exact ⟨takeWhile_cons_false _ _ _ hr,
        dropWhile_cons_false _ _ _ hr⟩
  by_cases hn : n = 0
  · subst hn
    rw [natToDec_small 0 (by omega)]
    show pNatTail ('0' :: rest) = some (0, rest)
    rfl
  · rcases natToDec_head_big n (by omega) with ⟨c, t, heq, hdig, hne⟩
    rw [heq, List.cons_append]
    have ht : ∀ x ∈ t, x.isDigit = true := fun x hx =>
      natToDec_all_digits n x (by rw [heq]; simp [hx])
    show (if c = '0' then some (0, t ++ rest)
      else if c.isDigit then
        some (decVal (c :: (t ++ rest).takeWhile Char.isDigit),
          (t ++ rest).dropWhile Char.isDigit)
      else none) = some (n, rest)
    rw [if_neg hne, if_pos hdig, takeWhile_append_all _ _ _ ht,
      dropWhile_append_all _ _ _ ht, tail_take.1, tail_take.2,
      List.append_nil, ← heq, decVal_natToDec]

theorem intTailOk_of_goodTail (l : List Char) (h : goodTail l = true) :
    intTailOk l = true := by
  cases l with
  | nil => rfl
  | cons c t =>
    unfold goodTail at h
    simp only [Bool.and_eq_true, Bool.not_eq_true', beq_eq_false_iff_ne,
      ne_eq] at h
    show (if c = '.' then
      match t with
      | d :: _ => !d.isDigit
      | [] => true
    else if c = 'e' ∨ c = 'E' then
      match t with
      | '+' :: d :: _ => !d.isDigit
      | '-' :: d :: _ => !d.isDigit
      | d :: _ => !d.isDigit
      | [] => true
    else true) = true
    rw [if_neg h.1.1.2, if_neg (by
      intro hc
      rcases hc with hc | hc
      · exact h.1.2 hc
      · exact h.2 hc)]

theorem pNum_cons (c : Char) (rest : List Char) :
    pNum (c :: rest) =
      if c = '-' then
        match pNatTail rest with
        | some (n, r) => if intTailOk r then
            some (Json.num (-(n : Int)), r) else none
        | none => none
      else
        match pNatTail (c :: rest) with
        | some (n, r) => if intTailOk r then
            some (Json.num ((n : Int)), r) else none
        | none => none := rfl

theorem pNum_dumpInt (n : Int) (rest : List Char)
    (hrest : goodTail rest = true) :
    pNum (dumpInt n ++ rest) = some (Json.num n, rest) := by
  unfold dumpInt
  by_cases hn : n < 0
  · rw [if_pos hn, List.cons_append, pNum_cons, if_pos rfl,
      pNatTail_natToDec n.natAbs rest hrest]
    show (if intTailOk rest then some (Json.num (-(n.natAbs : Int)), rest)
      else none) = some (Json.num n, rest)
    rw [if_pos (intTailOk_of_goodTail rest hrest)]
    have h2 : -((n.natAbs : Int)) = n := by omega
    rw [h2]
  · rw [if_neg hn]
    have hne := natToDec_ne_nil n.toNat
    rcases hc : natToDec n.toNat with _ | ⟨c, t⟩
    · exact absurd hc hne
    have hdig : c.isDigit = true :=
      natToDec_all_digits n.toNat c (by rw [hc]; simp)
    rcases isDigit_ne_zero_char c hdig with ⟨hm, _⟩
    rw [List.cons_append, pNum_cons, if_neg hm]
    have hstep : pNatTail (c :: (t ++ rest)) = some (n.toNat, rest) := by
      rw [← List.cons_append, ← hc, pNatTail_natToDec n.toNat rest hrest]
    rw [hstep]
    show (if intTailOk rest then some (Json.num ((n.toNat : Int)), rest)
      else none) = some (Json.num n, rest)
    rw [if_pos (intTailOk_of_goodTail rest hrest)]
    have h2 : ((n.toNat : Int)) = n := by omega
    rw [h2]

/-! the escaped string parses back -/

theorem fromHex_hexDig : ∀ d < 16, fromHex (hexDig d) = some d := by
  decide

theorem fromHex4_hex4 (n : Nat) (h : n < 65536) :
    fromHex4 (hexDig (n / 4096 % 16)) (hexDig (n / 256 % 16))
      (hexDig (n / 16 % 16)) (hexDig (n % 16)) = some n := by
  unfold fromHex4
  rw [fromHex_hexDig _ (Nat.mod_lt _ (by omega)),
    fromHex_hexDig _ (Nat.mod_lt _ (by omega)),
    fromHex_hexDig _ (Nat.mod_lt _ (by omega)),
    fromHex_hexDig _ (Nat.mod_lt _ (by omega))]
  show some (n / 4096 % 16 * 4096 + n / 256 % 16 * 256 +
    n / 16 % 16 * 16 + n % 16) = some n
  exact congrArg some (by omega)

theorem pStrTok_lit (c : Char) (X : List Char) (h1 : ¬ c = '"')
    (h2 : ¬ c = '\\') (h3 : ¬ c.toNat < 32) :
    pStrTok (c :: X) = StrTok.ch c X := by
  simp only [pStrTok.eq_def]
  rw [if_neg h1, if_neg h2, if_neg h3]

theorem pStrTok_u_bmp (n : Nat) (X : List Char) (hn : n < 65536)
    (hval : n < 55296 ∨ 57344 ≤ n) :
    pStrTok ('\\' :: 'u' :: (hex4 n ++ X)) =
      StrTok.ch (Char.ofNat n) X := by
  show pStrTok ('\\' :: 'u' :: hexDig (n / 4096 % 16) ::
    hexDig (n / 256 % 16) :: hexDig (n / 16 % 16) :: hexDig (n % 16) ::
      X) = _
  rw [pStrTok]
  rw [if_neg (by decide : ¬ ('\\' : Char) = '"'),
    if_pos (rfl : ('\\' : Char) = '\\')]
  simp only [fromHex4_hex4 n hn]
  rw [if_pos hval]

theorem pStrTok_u_pair (n : Nat) (X : List Char) (hn : 65536 ≤ n)
    (hmax : n < 1114112) :
    pStrTok (('\\' :: 'u' :: hex4 (55296 + (n - 65536) / 1024)) ++
      (('\\' :: 'u' :: hex4 (56320 + (n - 65536) % 1024)) ++ X)) =
      StrTok.ch (Char.ofNat n) X := by
  have hdivlt : (n - 65536) / 1024 < 1024 :=
    (Nat.div_lt_iff_lt_mul (by omega)).2 (by omega)
  have hmod : (n - 65536) % 1024 < 1024 := Nat.mod_lt _ (by omega)
  have hhi : 55296 + (n - 65536) / 1024 < 65536 := by omega
  have hlo : 56320 + (n - 65536) % 1024 < 65536 := by omega
  simp only [hex4, List.cons_append, List.nil_append]
  rw [pStrTok]
  simp only [fromHex4_hex4 _ hhi]
  have hv1 : ¬ (55296 + (n - 65536) / 1024 < 55296 ∨
      57344 ≤ 55296 + (n - 65536) / 1024) := by
    intro hc
    rcases hc with hc | hc <;> omega
  have hv2 : 55296 + (n - 65536) / 1024 < 56320 := by omega
  rw [if_neg hv1, if_pos hv2]
  simp only [fromHex4_hex4 _ hlo]
  rw [if_pos (⟨by omega, by omega⟩ :
    56320 ≤ 56320 + (n - 65536) % 1024 ∧
    56320 + (n - 65536) % 1024 < 57344)]
  have harith : 65536 + (55296 + (n - 65536) / 1024 - 55296) * 1024 +
      (56320 + (n - 65536) % 1024 - 56320) = n := by omega
  rw [if_neg (by decide : ¬ ('\\' : Char) = '"'), if_pos True.intro]
  exact congrArg (fun m => StrTok.ch (Char.ofNat m) X) harith

theorem escChar_length_pos (c : Char) : 0 < (escChar c).length := by
  unfold escChar
  split_ifs <;> simp [hex4]

theorem escStr_length (s : List Char) : s.length ≤ (escStr s).length := by
  induction s with
  | nil => simp [escStr]
  | cons c cs ih =>
    show (c :: cs).length ≤ (escChar c ++ escStr cs).length
    rw [List.length_append, List.length_cons]
    have := escChar_length_pos c
    omega

theorem pStrTok_escChar (c : Char) (Y : List Char) :
    pStrTok (escChar c ++ Y) = StrTok.ch c Y := by
  by_cases h1 : c = '"'
  · subst h1
    show pStrTok ('\\' :: '"' :: Y) = _
    rfl
  by_cases h2 : c = '\\'
  · subst h2
    show pStrTok ('\\' :: '\\' :: Y) = _
    rfl
  by_cases h3 : 32 ≤ c.toNat ∧ c.toNat ≤ 126
  · have he : escChar c = [c] := by
      unfold escChar
      rw [if_neg h1, if_neg h2, if_pos h3]
    rw [he]
    exact pStrTok_lit c Y h1 h2 (by omega)
  by_cases h4 : c = Char.ofNat 8
  · subst h4
    show pStrTok ('\\' :: 'b' :: Y) = _
    rfl
  by_cases h5 : c = Char.ofNat 12
  · subst h5
    show pStrTok ('\\' :: 'f' :: Y) = _
    rfl
  by_cases h6 : c = '\n'
  · subst h6
    show pStrTok ('\\' :: 'n' :: Y) = _
    rfl
  by_cases h7 : c = '\r'
  · subst h7
    show pStrTok ('\\' :: 'r' :: Y) = _
    rfl
  by_cases h8 : c = '\t'
  · subst h8
    show pStrTok ('\\' :: 't' :: Y) = _
    rfl
  have hvalid : c.toNat < 55296 ∨ (57344 ≤ c.toNat ∧ c.toNat < 1114112) :=
    c.valid
  by_cases h9 : c.toNat < 65536
  · have he : escChar c = '\\' :: 'u' :: hex4 c.toNat := by
      unfold escChar
      rw [if_neg h1, if_neg h2, if_neg h3, if_neg h4, if_neg h5,
        if_neg h6, if_neg h7, if_neg h8, if_pos h9]
    rw [he]
    have hstep : ('\\' :: 'u' :: hex4 c.toNat) ++ Y =
        '\\' :: 'u' :: (hex4 c.toNat ++ Y) := rfl
    rw [hstep, pStrTok_u_bmp c.toNat Y h9 (by omega), Char.ofNat_toNat]
  · have he : escChar c =
        ('\\' :: 'u' :: hex4 (55296 + (c.toNat - 65536) / 1024)) ++
          ('\\' :: 'u' :: hex4 (56320 + (c.toNat - 65536) % 1024)) := by
      unfold escChar
      rw [if_neg h1, if_neg h2, if_neg h3, if_neg h4, if_neg h5,
        if_neg h6, if_neg h7, if_neg h8, if_neg h9]
    rw [he, List.append_assoc,
      pStrTok_u_pair c.toNat Y (by omega) (by omega), Char.ofNat_toNat]

theorem pStrBody_escStr (s : List Char) : ∀ fuel rest, s.length < fuel →
    pStrBody fuel (escStr s ++ '"' :: rest) = some (s, rest) := by
  induction s with
  | nil =>
    intro fuel rest hf
    match fuel, hf with
    | f + 1, _ =>
      show pStrBody (f + 1) ('"' :: rest) = _
      rfl
  | cons c cs ih =>
    intro fuel rest hf
    match fuel, hf with
    | f + 1, hf =>
      have hsplit : escStr (c :: cs) ++ '"' :: rest =
          escChar c ++ (escStr cs ++ '"' :: rest) := by
        show (escChar c ++ escStr cs) ++ '"' :: rest = _
        rw [List.append_assoc]
      rw [hsplit, pStrBody, pStrTok_escChar c _]
      show (match pStrBody f (escStr cs ++ '"' :: rest) with
        | some (s, r) => some (c :: s, r)
        | none => none) = some (c :: cs, rest)
      rw [ih f rest (by
        have : (c :: cs).length < f + 1 := hf
        simp only [List.length_cons] at this
        omega)]

/-! shapes and character classes of serialized values -/

theorem char_ne_of_toNat {c d : Char} (h : c.toNat ≠ d.toNat) : c ≠ d :=
  fun hc => h (congrArg Char.toNat hc)

theorem natToDec_head (m : Nat) :
    ∃ c t, natToDec m = c :: t ∧ c.isDigit = true := by
  rcases List.exists_cons_of_ne_nil (natToDec_ne_nil m) with ⟨c, t, h⟩
  exact ⟨c, t, h, natToDec_all_digits m c (by rw [h]; simp)⟩

theorem dumpInt_head (n : Int) :
    ∃ c t, dumpInt n = c :: t ∧ (c = '-' ∨ c.isDigit = true) := by
  unfold dumpInt
  by_cases hn : n < 0
  · rw [if_pos hn]
    exact ⟨'-', natToDec n.natAbs, rfl, Or.inl rfl⟩
  · rw [if_neg hn]
    rcases natToDec_head n.toNat with ⟨c, t, h1, h2⟩
    exact ⟨c, t, h1, Or.inr h2⟩

theorem dumpVal_cons (v : Json) :
    ∃ c t, dumpVal v = c :: t ∧ jsonWs c = false := by
  match v with
  | Json.null => exact ⟨'n', _, rfl, rfl⟩
  | Json.bool true => exact ⟨'t', _, rfl, rfl⟩
  | Json.bool false => exact ⟨'f', _, rfl, rfl⟩
  | Json.str s => exact ⟨'"', _, rfl, rfl⟩
  | Json.arr [] => exact ⟨'[', _, rfl, rfl⟩
  | Json.arr (x :: xs) => exact ⟨'[', _, rfl, rfl⟩
  | Json.obj [] => exact ⟨lbr, _, rfl, rfl⟩
  | Json.obj (kv :: kvs) => exact ⟨lbr, _, rfl, rfl⟩
  | Json.num n =>
    rcases dumpInt_head n with ⟨c, t, h1, h2⟩
    refine ⟨c, t, h1, ?_⟩
    rcases h2 with h2 | h2
    · subst h2; rfl
    · exact jsonWs_of_isDigit c h2

theorem skipWs_dump (v : Json) (rest : List Char) :
    skipWs (dumpVal v ++ rest) = dumpVal v ++ rest := by
  rcases dumpVal_cons v with ⟨c, t, h1, h2⟩
  rw [h1, List.cons_append]
  exact skipWs_cons_not_ws c _ h2

theorem hexDig_toNat_lt (d : Nat) (h : d < 16) :
    (hexDig d).toNat < 128 := by
  unfold hexDig
  by_cases hd : d < 10
  · rw [if_pos hd, char_toNat_ofNat _ (Or.inl (by omega))]
    omega
  · rw [if_neg hd, char_toNat_ofNat _ (Or.inl (by omega))]
    omega

theorem hex4_ascii (n : Nat) : ∀ x ∈ hex4 n, x.toNat < 128 := by
  intro x hx
  unfold hex4 at hx
  simp only [List.mem_cons, List.not_mem_nil, or_false] at hx
  rcases hx with rfl | rfl | rfl | rfl <;>
    exact hexDig_toNat_lt _ (Nat.mod_lt _ (by omega))

theorem escChar_ascii (c : Char) : ∀ x ∈ escChar c, x.toNat < 128 := by
  intro x hx
  unfold escChar at hx
  split_ifs at hx with h1 h2 h3 h4 h5 h6 h7 h8 h9
  · simp only [List.mem_cons, List.not_mem_nil, or_false] at hx
    rcases hx with rfl | rfl <;> decide
  · simp only [List.mem_cons, List.not_mem_nil, or_false] at hx
    rcases hx with rfl | rfl <;> decide
  · simp only [List.mem_singleton] at hx
    subst hx
    omega
  · simp only [List.mem_cons, List.not_mem_nil, or_false] at hx
    rcases hx with rfl | rfl <;> decide
  · simp only [List.mem_cons, List.not_mem_nil, or_false] at hx
    rcases hx with rfl | rfl <;> decide
  · simp only [List.mem_cons, List.not_mem_nil, or_false] at hx
    rcases hx with rfl | rfl <;> decide
  · simp only [List.mem_cons, List.not_mem_nil, or_false] at hx
    rcases hx with rfl | rfl <;> decide
  · simp only [List.mem_cons, List.not_mem_nil, or_false] at hx
    rcases hx with rfl | rfl <;> decide
  · simp only [List.mem_cons] at hx
    rcases hx with rfl | hx
    · decide
    rcases hx with rfl | hx
    · decide
    exact hex4_ascii _ x hx
  · rcases List.mem_append.1 hx with hx | hx <;>
      simp only [List.mem_cons] at hx <;>
      (rcases hx with rfl | hx
       · decide) <;>
      (rcases hx with rfl | hx
       · decide) <;>
      exact hex4_ascii _ x hx

theorem escStr_ascii (s : List Char) : ∀ x ∈ escStr s, x.toNat < 128 := by
  intro x hx
  unfold escStr at hx
  rcases List.mem_flatMap.1 hx with ⟨c, _, hc⟩
  exact escChar_ascii c x hc

theorem natToDec_ascii (m : Nat) : ∀ x ∈ natToDec m, x.toNat < 128 := by
  intro x hx
  have := isDigit_toNat x (natToDec_all_digits m x hx)
  omega

theorem dumpStr_ascii (s : String) : ∀ x ∈ dumpStr s, x.toNat < 128 := by
  intro x hx
  unfold dumpStr at hx
  rcases List.mem_cons.1 hx with rfl | hx
  · decide
  rcases List.mem_append.1 hx with hx | hx
  · exact escStr_ascii s.data x hx
  · rcases List.mem_singleton.1 hx with rfl
    decide

theorem dumpInt_ascii (n : Int) : ∀ x ∈ dumpInt n, x.toNat < 128 := by
  intro x hx
  unfold dumpInt at hx
  split_ifs at hx
  · rcases List.mem_cons.1 hx with rfl | hx
    · decide
    · exact natToDec_ascii _ x hx
  · exact natToDec_ascii _ x hx

theorem dumpKV_ascii (kv : String × Json)
    (H : ∀ x ∈ dumpVal kv.2, x.toNat < 128) :
    ∀ x ∈ dumpKV kv, x.toNat < 128 := by
  obtain ⟨k, v⟩ := kv
  intro x hx
  show x.toNat < 128
  rcases List.mem_append.1 hx with hx | hx
  · exact dumpStr_ascii k x hx
  · rcases List.mem_cons.1 hx with rfl | hx
    · decide
    rcases List.mem_cons.1 hx with rfl | hx
    · decide
    exact H x hx

theorem dumpItems_ascii (ys : List Json)
    (H : ∀ z ∈ ys, ∀ x ∈ dumpVal z, x.toNat < 128) :
    ∀ x ∈ dumpItems ys, x.toNat < 128 := by
  induction ys with
  | nil => intro x hx; cases hx
  | cons z zs ih =>
    intro x hx
    rcases List.mem_cons.1 hx with rfl | hx
    · decide
    rcases List.mem_cons.1 hx with rfl | hx
    · decide
    rcases List.mem_append.1 hx with hx | hx
    · exact H z (by simp) x hx
    · exact ih (fun w hw => H w (by simp [hw])) x hx

theorem dumpFields_ascii (kvs : List (String × Json))
    (H : ∀ kv ∈ kvs, ∀ x ∈ dumpVal (Prod.snd kv), x.toNat < 128) :
    ∀ x ∈ dumpFields kvs, x.toNat < 128 := by
  induction kvs with
  | nil => intro x hx; cases hx
  | cons kv kvs ih =>
    intro x hx
    rcases List.mem_cons.1 hx with rfl | hx
    · decide
    rcases List.mem_cons.1 hx with rfl | hx
    · decide
    rcases List.mem_append.1 hx with hx | hx
    · exact dumpKV_ascii kv (H kv (by simp)) x hx
    · exact ih (fun w hw => H w (by simp [hw])) x hx

theorem dump_ascii : ∀ v : Json, ∀ x ∈ dumpVal v, x.toNat < 128 := by
  intro v
  induction v using Json.inductionOn with
  | hnull =>
    exact fun x hx =>
      (by decide : ∀ x ∈ (['n', 'u', 'l', 'l'] : List Char),
        x.toNat < 128) x hx
  | hbool b =>
    cases b
    · exact fun x hx =>
        (by decide : ∀ x ∈ (['f', 'a', 'l', 's', 'e'] : List Char),
          x.toNat < 128) x hx
    · exact fun x hx =>
        (by decide : ∀ x ∈ (['t', 'r', 'u', 'e'] : List Char),
          x.toNat < 128) x hx
  | hnum n => exact dumpInt_ascii n
  | hstr s => exact dumpStr_ascii s
  | harr xs ih =>
    cases xs with
    | nil =>
      exact fun x hx =>
        (by decide : ∀ x ∈ (['[', ']'] : List Char), x.toNat < 128) x hx
    | cons y ys =>
      intro x hx
      rcases List.mem_cons.1 hx with rfl | hx
      · decide
      rcases List.mem_append.1 hx with hx | hx
      · rcases List.mem_append.1 hx with hx | hx
        · exact ih y (by simp) x hx
        · exact dumpItems_ascii ys (fun z hz => ih z (by simp [hz])) x hx
      · rcases List.mem_singleton.1 hx with rfl
        decide
  | hobj kvs ih =>
    cases kvs with
    | nil =>
      exact fun x hx =>
        (by decide : ∀ x ∈ ([lbr, rbr] : List Char), x.toNat < 128) x hx
    | cons kv kvs =>
      intro x hx
      rcases List.mem_cons.1 hx with rfl | hx
      · decide
      rcases List.mem_append.1 hx with hx | hx
      · rcases List.mem_append.1 hx with hx | hx
        · exact dumpKV_ascii kv (ih kv (by simp)) x hx
        · exact dumpFields_ascii kvs (fun w hw => ih w (by simp [hw])) x hx
      · rcases List.mem_singleton.1 hx with rfl
        decide

theorem utf8Len_ascii (l : List Char) (h : ∀ c ∈ l, c.toNat < 128) :
    utf8Len l = l.length := by
  induction l with
  | nil => rfl
  | cons c cs ih =>
    show charUtf8Size c + utf8Len cs = cs.length + 1
    unfold charUtf8Size
    rw [if_pos (h c (by simp)), ih (fun x hx => h x (by simp [hx]))]
    omega

theorem dump_len_pos (v : Json) : 0 < (dumpVal v).length := by
  rcases dumpVal_cons v with ⟨c, t, h1, _⟩
  rw [h1]
  simp

theorem dumpItems_len (z : Json) (zs : List Json) :
    (dumpItems (z :: zs)).length =
      2 + (dumpVal z).length + (dumpItems zs).length := by
  show (',' :: ' ' :: (dumpVal z ++ dumpItems zs)).length = _
  simp [List.length_append]
  omega

theorem dumpKV_len (k : String) (v : Json) :
    (dumpVal v).length + 4 ≤ (dumpKV (k, v)).length := by
  show (dumpVal v).length + 4 ≤
    (dumpStr k ++ ':' :: ' ' :: dumpVal v).length
  rw [List.length_append]
  have : 2 ≤ (dumpStr k).length := by
    show 2 ≤ ('"' :: escStr k.data ++ ['"']).length
    simp
  simp only [List.length_cons]
  omega

theorem dumpFields_len (kv : String × Json) (kvs : List (String × Json)) :
    (dumpFields (kv :: kvs)).length =
      2 + (dumpKV kv).length + (dumpFields kvs).length := by
  show (',' :: ' ' :: (dumpKV kv ++ dumpFields kvs)).length = _
  simp [List.length_append]
  omega

theorem pNeedItems_le : ∀ ys y, pNeed y ≤ (dumpVal y).length →
    (∀ z ∈ ys, pNeed z ≤ (dumpVal z).length) →
    pNeedItems (y :: ys) ≤
      (dumpVal y).length + (dumpItems ys).length + 1 := by
  intro ys
  induction ys with
  | nil =>
    intro y hy _
    show 1 + max (pNeed y) 0 ≤ _
    simp only [Nat.max_zero]
    omega
  | cons z zs ih =>
    intro y hy H
    show 1 + max (pNeed y) (pNeedItems (z :: zs)) ≤ _
    have h1 := ih z (H z (by simp)) (fun w hw => H w (by simp [hw]))
    rw [dumpItems_len]
    omega

theorem pNeedFields_le : ∀ kvs kv, pNeed (Prod.snd kv) ≤
      (dumpVal (Prod.snd kv)).length →
    (∀ lv ∈ kvs, pNeed (Prod.snd lv) ≤ (dumpVal (Prod.snd lv)).length) →
    pNeedFields (kv :: kvs) ≤
      (dumpKV kv).length + (dumpFields kvs).length + 1 := by
  intro kvs
  induction kvs with
  | nil =>
    intro kv hv _
    obtain ⟨k, v⟩ := kv
    have hv2 : pNeed v ≤ (dumpVal v).length := hv
    show 1 + max (pNeed v) 0 ≤ _
    simp only [Nat.max_zero]
    have := dumpKV_len k v
    omega
  | cons lv lvs ih =>
    intro kv hv H
    obtain ⟨k, v⟩ := kv
    have hv2 : pNeed v ≤ (dumpVal v).length := hv
    show 1 + max (pNeed v) (pNeedFields (lv :: lvs)) ≤ _
    have h1 := ih lv (H lv (by simp)) (fun w hw => H w (by simp [hw]))
    rw [dumpFields_len]
    have := dumpKV_len k v
    omega

theorem pNeed_le : ∀ v : Json, pNeed v ≤ (dumpVal v).length := by
  intro v
  induction v using Json.inductionOn with
  | hnull => show 1 ≤ 4; omega
  | hbool b => cases b <;> simp [pNeed, dumpVal]
  | hnum n =>
    show 1 ≤ (dumpInt n).length
    have := dumpInt_head n
    rcases this with ⟨c, t, h1, _⟩
    rw [h1]
    simp
  | hstr s =>
    show 1 ≤ (dumpStr s).length
    show 1 ≤ ('"' :: escStr s.data ++ ['"']).length
    simp
  | harr xs ih =>
    cases xs with
    | nil => show 1 + 0 ≤ 2; omega
    | cons y ys =>
      show 1 + pNeedItems (y :: ys) ≤
        ('[' :: (dumpVal y ++ dumpItems ys) ++ [']']).length
      have h1 := pNeedItems_le ys y (ih y (by simp))
        (fun z hz => ih z (by simp [hz]))
      simp only [List.length_append, List.length_cons,
        List.length_singleton]
      omega
  | hobj kvs ih =>
    cases kvs with
    | nil => show 1 + 0 ≤ 2; omega
    | cons kv lvs =>
      show 1 + pNeedFields (kv :: lvs) ≤
        (lbr :: (dumpKV kv ++ dumpFields lvs) ++ [rbr]).length
      have h1 := pNeedFields_le lvs kv (ih kv (by simp))
        (fun w hw => ih w (by simp [hw]))
      simp only [List.length_append, List.length_cons,
        List.length_singleton]
      omega

/-! well-formed objects survive the dict construction -/

theorem wfArr_mem (xs : List Json) (h : wfArr xs = true) :
    ∀ x ∈ xs, wfVal x = true := by
  induction xs with
  | nil => intro x hx; cases hx
  | cons y ys ih =>
    rw [wfArr, Bool.and_eq_true] at h
    intro x hx
    rcases List.mem_cons.1 hx with rfl | hx
    · exact h.1
    · exact ih h.2 x hx

theorem wfObj_cons (k : String) (v : Json) (kvs : List (String × Json))
    (h : wfObj ((k, v) :: kvs) = true) :
    (∀ kv ∈ kvs, ¬ Prod.fst kv = k) ∧ wfVal v = true ∧
      wfObj kvs = true := by
  rw [wfObj, Bool.and_eq_true, Bool.and_eq_true] at h
  refine ⟨?_, h.1.2, h.2⟩
  intro kv hkv
  have := List.all_eq_true.1 h.1.1 kv hkv
  simpa using this

theorem wfObj_mem (kvs : List (String × Json)) (h : wfObj kvs = true) :
    ∀ kv ∈ kvs, wfVal (Prod.snd kv) = true := by
  induction kvs with
  | nil => intro kv hkv; cases hkv
  | cons lv lvs ih =>
    obtain ⟨k, v⟩ := lv
    rcases wfObj_cons k v lvs h with ⟨_, h2, h3⟩
    intro kv hkv
    rcases List.mem_cons.1 hkv with rfl | hkv
    · exact h2
    · exact ih h3 kv hkv

theorem dictSetS_append (acc : List (String × Json)) (k : String)
    (v : Json) (h : ∀ kv ∈ acc, ¬ Prod.fst kv = k) :
    dictSetS acc k v = acc ++ [(k, v)] := by
  induction acc with
  | nil => rfl
  | cons kv rest ih =>
    obtain ⟨k', v'⟩ := kv
    show (if k' = k then _ else _) = _
    rw [if_neg (h (k', v') (by simp))]
    rw [ih (fun w hw => h w (by simp [hw]))]
    rfl

theorem pyDict_aux (kvs : List (String × Json)) :
    ∀ acc, (∀ kv ∈ kvs, ∀ lv ∈ acc, ¬ Prod.fst lv = Prod.fst kv) →
    wfObj kvs = true →
    kvs.foldl (fun a kv => dictSetS a kv.1 kv.2) acc = acc ++ kvs := by
  induction kvs with
  | nil => intro acc _ _; simp
  | cons kv rest ih =>
    intro acc hdisj hwf
    obtain ⟨k, v⟩ := kv
    rcases wfObj_cons k v rest hwf with ⟨hkeys, _, hrest⟩
    show rest.foldl (fun a kv => dictSetS a kv.1 kv.2)
      (dictSetS acc k v) = _
    rw [dictSetS_append acc k v
      (fun w hw => hdisj (k, v) (by simp) w hw)]
    rw [ih (acc ++ [(k, v)]) (fun w hw lv hlv => by
      rcases List.mem_append.1 hlv with hlv | hlv
      · exact hdisj w (by simp [hw]) lv hlv
      · rcases List.mem_singleton.1 hlv with rfl
        intro hc
        exact hkeys w hw hc.symm) hrest]
    simp

theorem pyDict_wf (kvs : List (String × Json)) (h : wfObj kvs = true) :
    pyDict kvs = kvs := by
  unfold pyDict
  rw [pyDict_aux kvs [] (fun kv _ lv hlv => absurd hlv (by simp)) h]
  rfl

theorem dumpVal_head2 (v : Json) : ∃ c t, dumpVal v = c :: t ∧
    jsonWs c = false ∧ ¬ c = ']' := by
  match v with
  | Json.null => exact ⟨'n', _, rfl, rfl, by decide⟩
  | Json.bool true => exact ⟨'t', _, rfl, rfl, by decide⟩
  | Json.bool false => exact ⟨'f', _, rfl, rfl, by decide⟩
  | Json.str s => exact ⟨'"', _, rfl, rfl, by decide⟩
  | Json.arr [] => exact ⟨'[', _, rfl, rfl, by decide⟩
  | Json.arr (x :: xs) => exact ⟨'[', _, rfl, rfl, by decide⟩
  | Json.obj [] => exact ⟨lbr, _, rfl, rfl, by decide⟩
  | Json.obj (kv :: kvs) => exact ⟨lbr, _, rfl, rfl, by decide⟩
  | Json.num n =>
    rcases dumpInt_head n with ⟨c, t, h1, h2⟩
    refine ⟨c, t, h1, ?_, ?_⟩
    · rcases h2 with h2 | h2
      · subst h2; rfl
      · exact jsonWs_of_isDigit c h2
    · rcases h2 with h2 | h2
      · subst h2; decide
      · rcases isDigit_toNat c h2 with ⟨hl, hr⟩
        exact char_ne_of_toNat (by
          have : (']').toNat = 93 := rfl
          omega)

/-! the serialized value parses back -/

theorem pItems_dump : ∀ (ys : List Json) (y : Json),
    (∀ z ∈ y :: ys, wfVal z = true → ∀ fuel rest, pNeed z ≤ fuel →
      goodTail rest = true →
      pVal fuel (dumpVal z ++ rest) = some (z, rest)) →
    (∀ z ∈ y :: ys, wfVal z = true) →
    ∀ fuel rest, pNeedItems (y :: ys) ≤ fuel → goodTail rest = true →
      pItems fuel (dumpVal y ++ (dumpItems ys ++ (']' :: rest))) =
        some (y :: ys, rest) := by
  intro ys
  induction ys with
  | nil =>
    intro y hP hwf fuel rest hfuel hrest
    have hf2 : 1 + max (pNeed y) 0 ≤ fuel := hfuel
    obtain ⟨g, rfl⟩ : ∃ g, fuel = g + 1 := ⟨fuel - 1, by omega⟩
    rw [show dumpItems [] = ([] : List Char) from rfl, List.nil_append]
    rw [pItems]
    rw [hP y (by simp) (hwf y (by simp)) g (']' :: rest) (by omega) rfl]
    rfl
  | cons z zs ih =>
    intro y hP hwf fuel rest hfuel hrest
    have hf2 : 1 + max (pNeed y) (pNeedItems (z :: zs)) ≤ fuel := hfuel
    obtain ⟨g, rfl⟩ : ∃ g, fuel = g + 1 := ⟨fuel - 1, by omega⟩
    rw [pItems]
    have hgt : goodTail (dumpItems (z :: zs) ++ (']' :: rest)) = true := by
      show goodTail (',' :: _) = true
      rfl
    rw [hP y (by simp) (hwf y (by simp)) g _ (by omega) hgt]
    show (match skipWs (dumpItems (z :: zs) ++ (']' :: rest)) with
      | [] => none
      | c :: r2 =>
        if c = ',' then
          match pItems g (skipWs r2) with
          | some (vs, r3) => some (y :: vs, r3)
          | none => none
        else if c = ']' then some ([y], r2)
        else none) = some (y :: z :: zs, rest)
    have hsk : skipWs (dumpItems (z :: zs) ++ (']' :: rest)) =
        ',' :: (' ' :: ((dumpVal z ++ dumpItems zs) ++ (']' :: rest))) := by
      show skipWs (',' :: _) = _
      exact skipWs_cons_not_ws _ _ rfl
    rw [hsk]
    show (match pItems g
        (skipWs (' ' :: ((dumpVal z ++ dumpItems zs) ++ (']' :: rest))))
        with
      | some (vs, r3) => some (y :: vs, r3)
      | none => none) = some (y :: z :: zs, rest)
    have hsk2 : skipWs
        (' ' :: ((dumpVal z ++ dumpItems zs) ++ (']' :: rest))) =
        dumpVal z ++ (dumpItems zs ++ (']' :: rest)) := by
      show skipWs ((dumpVal z ++ dumpItems zs) ++ (']' :: rest)) = _
      rw [List.append_assoc]
      exact skipWs_dump z _
    rw [hsk2]
    rw [ih z (fun w hw => hP w (List.mem_cons_of_mem y hw))
      (fun w hw => hwf w (List.mem_cons_of_mem y hw)) g rest
      (by omega) hrest]

theorem dumpKV_shape (k : String) (v : Json) (X : List Char) :
    dumpKV (k, v) ++ X =
      '"' :: (escStr k.data ++
        ('"' :: (':' :: (' ' :: (dumpVal v ++ X))))) := by
  show (('"' :: (escStr k.data ++ ['"'])) ++
    (':' :: ' ' :: dumpVal v)) ++ X = _
  simp [List.append_assoc]

theorem pStrBody_escStr_len (k : List Char) (tail : List Char) :
    pStrBody ((escStr k ++ ('"' :: tail)).length + 1)
      (escStr k ++ ('"' :: tail)) = some (k, tail) := by
  apply pStrBody_escStr
  have h1 := escStr_length k
  rw [List.length_append]
  simp only [List.length_cons]
  omega

theorem pFields_dump : ∀ (kvs : List (String × Json)) (k : String)
    (v : Json),
    (∀ w ∈ (k, v) :: kvs, wfVal (Prod.snd w) = true → ∀ fuel rest,
      pNeed (Prod.snd w) ≤ fuel → goodTail rest = true →
      pVal fuel (dumpVal (Prod.snd w) ++ rest) =
        some (Prod.snd w, rest)) →
    (∀ w ∈ (k, v) :: kvs, wfVal (Prod.snd w) = true) →
    ∀ fuel rest, pNeedFields ((k, v) :: kvs) ≤ fuel →
      goodTail rest = true →
      pFields fuel (dumpKV (k, v) ++ (dumpFields kvs ++ (rbr :: rest))) =
        some ((k, v) :: kvs, rest) := by
  intro kvs
  induction kvs with
  | nil =>
    intro k v hP hwf fuel rest hfuel hrest
    have hf2 : 1 + max (pNeed v) 0 ≤ fuel := hfuel
    obtain ⟨g, rfl⟩ : ∃ g, fuel = g + 1 := ⟨fuel - 1, by omega⟩
    rw [show dumpFields [] = ([] : List Char) from rfl, List.nil_append]
    rw [dumpKV_shape]
    rw [pFields]
    rw [pStrBody_escStr_len k.data
      (':' :: (' ' :: (dumpVal v ++ (rbr :: rest))))]
    show (match pVal g
        (skipWs (' ' :: (dumpVal v ++ (rbr :: rest)))) with
      | some (v2, r4) =>
        match skipWs r4 with
        | [] => none
        | c2 :: r6 =>
          if c2 = ',' then
            match pFields g (skipWs r6) with
            | some (kvs2, r7) =>
              some ((String.mk k.data, v2) :: kvs2, r7)
            | none => none
          else if c2 = rbr then some ([(String.mk k.data, v2)], r6)
          else none
      | none => none) = some ([(k, v)], rest)
    have hsk : skipWs (' ' :: (dumpVal v ++ (rbr :: rest))) =
        dumpVal v ++ (rbr :: rest) := by
      show skipWs (dumpVal v ++ (rbr :: rest)) = _
      exact skipWs_dump v _
    rw [hsk]
    have hgt : goodTail (rbr :: rest) = true := rfl
    rw [hP (k, v) (by simp) (hwf (k, v) (by simp)) g _
      (by show pNeed v ≤ g; omega) hgt]
    show (if rbr = ',' then
        match pFields g (skipWs rest) with
        | some (kvs2, r7) => some ((String.mk k.data, v) :: kvs2, r7)
        | none => none
      else if rbr = rbr then some ([(String.mk k.data, v)], rest)
      else none) = some ([(k, v)], rest)
    rw [if_neg (by decide : ¬ rbr = ','), if_pos rfl]
  | cons lv lvs ih =>
    intro k v hP hwf fuel rest hfuel hrest
    have hf2 : 1 + max (pNeed v) (pNeedFields (lv :: lvs)) ≤ fuel := hfuel
    obtain ⟨g, rfl⟩ : ∃ g, fuel = g + 1 := ⟨fuel - 1, by omega⟩
    rw [dumpKV_shape]
    rw [pFields]
    rw [pStrBody_escStr_len k.data
      (':' :: (' ' :: (dumpVal v ++
        (dumpFields (lv :: lvs) ++ (rbr :: rest)))))]
    show (match pVal g
        (skipWs (' ' :: (dumpVal v ++
          (dumpFields (lv :: lvs) ++ (rbr :: rest))))) with
      | some (v2, r4) =>
        match skipWs r4 with
        | [] => none
        | c2 :: r6 =>
          if c2 = ',' then
            match pFields g (skipWs r6) with
            | some (kvs2, r7) =>
              some ((String.mk k.data, v2) :: kvs2, r7)
            | none => none
          else if c2 = rbr then some ([(String.mk k.data, v2)], r6)
          else none
      | none => none) = some ((k, v) :: lv :: lvs, rest)
    have hsk : skipWs (' ' :: (dumpVal v ++
        (dumpFields (lv :: lvs) ++ (rbr :: rest)))) =
        dumpVal v ++ (dumpFields (lv :: lvs) ++ (rbr :: rest)) := by
      show skipWs (dumpVal v ++
        (dumpFields (lv :: lvs) ++ (rbr :: rest))) = _
      exact skipWs_dump v _
    rw [hsk]
    have hgt : goodTail (dumpFields (lv :: lvs) ++ (rbr :: rest)) =
        true := by
      show goodTail (',' :: _) = true
      rfl
    rw [hP (k, v) (by simp) (hwf (k, v) (by simp)) g _
      (by show pNeed v ≤ g; omega) hgt]
    obtain ⟨k2, v2⟩ := lv
    show (match pFields g (skipWs (' ' ::
        ((dumpKV (k2, v2) ++ dumpFields lvs) ++ (rbr :: rest)))) with
      | some (kvs2, r7) => some ((String.mk k.data, v) :: kvs2, r7)
      | none => none) = some ((k, v) :: (k2, v2) :: lvs, rest)
    have hsk4 : skipWs (' ' ::
        ((dumpKV (k2, v2) ++ dumpFields lvs) ++ (rbr :: rest))) =
        dumpKV (k2, v2) ++ (dumpFields lvs ++ (rbr :: rest)) := by
      show skipWs ((dumpKV (k2, v2) ++ dumpFields lvs) ++
        (rbr :: rest)) = _
      rw [List.append_assoc, dumpKV_shape]
      rfl
    rw [hsk4]
    rw [ih k2 v2 (fun w hw => hP w (List.mem_cons_of_mem (k, v) hw))
      (fun w hw => hwf w (List.mem_cons_of_mem (k, v) hw)) g rest
      (by show pNeedFields ((k2, v2) :: lvs) ≤ g; omega) hrest]

theorem pVal_dump : ∀ v : Json, wfVal v = true → ∀ fuel rest,
    pNeed v ≤ fuel → goodTail rest = true →
    pVal fuel (dumpVal v ++ rest) = some (v, rest) := by
  intro v
  induction v using Json.inductionOn with
  | hnull =>
    intro _ fuel rest hfuel _
    have hf2 : 1 ≤ fuel := hfuel
    obtain ⟨g, rfl⟩ : ∃ g, fuel = g + 1 := ⟨fuel - 1, by omega⟩
    rfl
  | hbool b =>
    intro _ fuel rest hfuel _
    have hf2 : 1 ≤ fuel := hfuel
    obtain ⟨g, rfl⟩ : ∃ g, fuel = g + 1 := ⟨fuel - 1, by omega⟩
    cases b <;> rfl
  | hnum n =>
    intro _ fuel rest hfuel hrest
    have hf2 : 1 ≤ fuel := hfuel
    obtain ⟨g, rfl⟩ : ∃ g, fuel = g + 1 := ⟨fuel - 1, by omega⟩
    rcases dumpInt_head n with ⟨c, t, h1, h2⟩
    have hc : c.toNat = 45 ∨ (48 ≤ c.toNat ∧ c.toNat ≤ 57) := by
      rcases h2 with h2 | h2
      · subst h2; exact Or.inl rfl
      · exact Or.inr (isDigit_toNat c h2)
    rw [show dumpVal (Json.num n) = dumpInt n from rfl, h1,
      List.cons_append]
    show (if c = '"' then
        match pStrBody ((t ++ rest).length + 1) (t ++ rest) with
        | some (s, r) => some (Json.str (String.mk s), r)
        | none => none
      else if c = '[' then
        match skipWs (t ++ rest) with
        | [] => none
        | c2 :: r =>
          if c2 = ']' then some (Json.arr [], r)
          else
            match pItems g (c2 :: r) with
            | some (xs, r2) => some (Json.arr xs, r2)
            | none => none
      else if c = lbr then
        match skipWs (t ++ rest) with
        | c2 :: r =>
          if c2 = rbr then some (Json.obj [], r)
          else
            match pFields g (c2 :: r) with
            | some (kvs, r2) => some (Json.obj (pyDict kvs), r2)
            | none => none
        | [] => none
      else if c = 't' then
        match t ++ rest with
        | 'r' :: 'u' :: 'e' :: r => some (Json.bool true, r)
        | _ => none
      else if c = 'f' then
        match t ++ rest with
        | 'a' :: 'l' :: 's' :: 'e' :: r => some (Json.bool false, r)
        | _ => none
      else if c = 'n' then
        match t ++ rest with
        | 'u' :: 'l' :: 'l' :: r => some (Json.null, r)
        | _ => none
      else pNum (c :: (t ++ rest))) = some (Json.num n, rest)
    have e1 : ('"').toNat = 34 := rfl
    have e2 : ('[').toNat = 91 := rfl
    have e3 : lbr.toNat = 123 := rfl
    have e4 : ('t').toNat = 116 := rfl
    have e5 : ('f').toNat = 102 := rfl
    have e6 : ('n').toNat = 110 := rfl
    rw [if_neg (char_ne_of_toNat (by omega)),
      if_neg (char_ne_of_toNat (by omega)),
      if_neg (char_ne_of_toNat (by omega)),
      if_neg (char_ne_of_toNat (by omega)),
      if_neg (char_ne_of_toNat (by omega)),
      if_neg (char_ne_of_toNat (by omega))]
    rw [← List.cons_append, ← h1]
    exact pNum_dumpInt n rest hrest
  | hstr s =>
    intro _ fuel rest hfuel _
    have hf2 : 1 ≤ fuel := hfuel
    obtain ⟨g, rfl⟩ : ∃ g, fuel = g + 1 := ⟨fuel - 1, by omega⟩
    have hsplit : dumpVal (Json.str s) ++ rest =
        '"' :: (escStr s.data ++ ('"' :: rest)) := by
      show ('"' :: (escStr s.data ++ ['"'])) ++ rest = _
      simp [List.append_assoc]
    rw [hsplit]
    show (match pStrBody ((escStr s.data ++ ('"' :: rest)).length + 1)
        (escStr s.data ++ ('"' :: rest)) with
      | some (s2, r) => some (Json.str (String.mk s2), r)
      | none => none) = some (Json.str s, rest)
    rw [pStrBody_escStr_len]
  | harr xs ih =>
    cases xs with
    | nil =>
      intro _ fuel rest hfuel _
      have hf2 : 1 + pNeedItems [] ≤ fuel := hfuel
      obtain ⟨g, rfl⟩ : ∃ g, fuel = g + 1 := ⟨fuel - 1, by omega⟩
      rfl
    | cons x xs2 =>
      intro hwf fuel rest hfuel hrest
      have hf2 : 1 + pNeedItems (x :: xs2) ≤ fuel := hfuel
      obtain ⟨g, rfl⟩ : ∃ g, fuel = g + 1 := ⟨fuel - 1, by omega⟩
      have hsplit : dumpVal (Json.arr (x :: xs2)) ++ rest =
          '[' :: ((dumpVal x ++ dumpItems xs2) ++ (']' :: rest)) := by
        show ('[' :: (dumpVal x ++ dumpItems xs2) ++ [']']) ++ rest = _
        simp [List.append_assoc]
      rw [hsplit]
      show (match skipWs ((dumpVal x ++ dumpItems xs2) ++
          (']' :: rest)) with
        | [] => none
        | c :: r =>
          if c = ']' then some (Json.arr [], r)
          else
            match pItems g (c :: r) with
            | some (xs3, r2) => some (Json.arr xs3, r2)
            | none => none) = some (Json.arr (x :: xs2), rest)
      have hsk : skipWs ((dumpVal x ++ dumpItems xs2) ++ (']' :: rest)) =
          dumpVal x ++ (dumpItems xs2 ++ (']' :: rest)) := by
        rw [List.append_assoc]
        exact skipWs_dump x _
      rw [hsk]
      rcases dumpVal_head2 x with ⟨c, t, hx, hws, hne⟩
      rw [hx, List.cons_append]
      show (if c = ']' then
          some (Json.arr [], t ++ (dumpItems xs2 ++ (']' :: rest)))
        else
          match pItems g (c :: (t ++ (dumpItems xs2 ++ (']' :: rest))))
            with
          | some (xs3, r2) => some (Json.arr xs3, r2)
          | none => none) = some (Json.arr (x :: xs2), rest)
      rw [if_neg hne]
      rw [← List.cons_append, ← hx]
      rw [pItems_dump xs2 x ih (wfArr_mem (x :: xs2) hwf) g rest
        (by omega) hrest]
  | hobj kvs ih =>
    cases kvs with
    | nil =>
      intro _ fuel rest hfuel _
      have hf2 : 1 + pNeedFields [] ≤ fuel := hfuel
      obtain ⟨g, rfl⟩ : ∃ g, fuel = g + 1 := ⟨fuel - 1, by omega⟩
      rfl
    | cons kv kvs2 =>
      obtain ⟨k, v⟩ := kv
      intro hwf fuel rest hfuel hrest
      have hwfobj : wfObj ((k, v) :: kvs2) = true := hwf
      have hf2 : 1 + pNeedFields ((k, v) :: kvs2) ≤ fuel := hfuel
      obtain ⟨g, rfl⟩ : ∃ g, fuel = g + 1 := ⟨fuel - 1, by omega⟩
      have hsplit : dumpVal (Json.obj ((k, v) :: kvs2)) ++ rest =
          lbr :: ((dumpKV (k, v) ++ dumpFields kvs2) ++ (rbr :: rest))
          := by
        show (lbr :: (dumpKV (k, v) ++ dumpFields kvs2) ++ [rbr]) ++
          rest = _
        simp [List.append_assoc]
      rw [hsplit]
      show (match skipWs ((dumpKV (k, v) ++ dumpFields kvs2) ++
          (rbr :: rest)) with
        | c :: r =>
          if c = rbr then some (Json.obj [], r)
          else
            match pFields g (c :: r) with
            | some (kvs3, r2) => some (Json.obj (pyDict kvs3), r2)
            | none => none
        | [] => none) = some (Json.obj ((k, v) :: kvs2), rest)
      have hsk : skipWs ((dumpKV (k, v) ++ dumpFields kvs2) ++
          (rbr :: rest)) =
          dumpKV (k, v) ++ (dumpFields kvs2 ++ (rbr :: rest)) := by
        rw [List.append_assoc, dumpKV_shape]
        rfl
      rw [hsk]
      rw [dumpKV_shape k v (dumpFields kvs2 ++ (rbr :: rest))]
      show (match pFields g ('"' :: (escStr k.data ++ ('"' :: (':' ::
          (' ' :: (dumpVal v ++ (dumpFields kvs2 ++ (rbr :: rest)))))))) with
        | some (kvs3, r2) => some (Json.obj (pyDict kvs3), r2)
        | none => none) = some (Json.obj ((k, v) :: kvs2), rest)
      rw [← dumpKV_shape k v (dumpFields kvs2 ++ (rbr :: rest))]
      rw [pFields_dump kvs2 k v ih
        (wfObj_mem ((k, v) :: kvs2) hwfobj) g rest (by omega) hrest]
      show some (Json.obj (pyDict ((k, v) :: kvs2)), rest) =
        some (Json.obj ((k, v) :: kvs2), rest)
      rw [pyDict_wf ((k, v) :: kvs2) hwfobj]

theorem loads_dump (v : Json) (h : wfVal v = true) :
    loads (dumpVal v) = some v := by
  unfold loads
  have hsk : skipWs (dumpVal v) = dumpVal v := by
    have h2 := skipWs_dump v []
    simpa using h2
  rw [hsk]
  have h3 := pVal_dump v h ((dumpVal v).length + 1) []
    (by have := pNeed_le v; omega) rfl
  rw [List.append_nil] at h3
  rw [h3]
  rfl

/-! the framing layer round-trips -/

theorem readLine_append (pre post : List Char) :
    ¬ '\n' ∈ pre →
    readLine (pre ++ '\n' :: post) = (pre ++ ['\n'], post) := by
  induction pre with
  | nil => intro _; rfl
  | cons c cs ih =>
    intro h
    have hc : ¬ c = '\n' := fun hcc => h (by simp [hcc])
    rw [List.cons_append]
    show (if c = '\n' then ([c], cs ++ '\n' :: post)
      else
        match readLine (cs ++ '\n' :: post) with
        | (l, r) => (c :: l, r)) = ((c :: cs) ++ ['\n'], post)
    rw [if_neg hc, ih (fun hx => h (List.mem_cons_of_mem c hx))]
    rfl

theorem dropWhile_cons_true (p : Char → Bool) (c : Char) (t : List Char)
    (h : p c = true) : List.dropWhile p (c :: t) = List.dropWhile p t := by
  simp [List.dropWhile, h]

theorem pyStrip_header (T : CharTables) (N : Nat) :
    pyStrip T (("Content-Length: ".data ++ (natToDec N ++ ['\r'])) ++
        ['\n']) =
      "Content-Length: ".data ++ natToDec N := by
  unfold pyStrip
  have h1 : List.dropWhile (pyIsSpace T)
      (("Content-Length: ".data ++ (natToDec N ++ ['\r'])) ++ ['\n']) =
      ("Content-Length: ".data ++ (natToDec N ++ ['\r'])) ++ ['\n'] := by
    show List.dropWhile (pyIsSpace T) ('C' :: _) = _
    exact dropWhile_cons_false _ 'C' _ rfl
  rw [h1]
  have h2 : ((("Content-Length: ".data ++ (natToDec N ++ ['\r'])) ++
      ['\n'])).reverse =
      '\n' :: ('\r' :: ((natToDec N).reverse ++
        ("Content-Length: ".data).reverse)) := by
    simp
  rw [h2, dropWhile_cons_true _ _ _ rfl, dropWhile_cons_true _ _ _ rfl]
  obtain ⟨c, t, hct⟩ : ∃ c t, (natToDec N).reverse = c :: t :=
    List.exists_cons_of_ne_nil (by simpa using natToDec_ne_nil N)
  have hcmem : c ∈ (natToDec N).reverse := by
    rw [hct]; exact List.mem_cons_self c t
  have hcdig : c.isDigit = true :=
    natToDec_all_digits N c (List.mem_reverse.1 hcmem)
  rw [hct, List.cons_append,
    dropWhile_cons_false _ _ _ (pyIsSpace_of_isDigit T c hcdig)]
  rw [show c :: (t ++ ("Content-Length: ".data).reverse) =
    (c :: t) ++ ("Content-Length: ".data).reverse from rfl]
  rw [List.reverse_append, List.reverse_reverse, ← hct,
    List.reverse_reverse]

theorem splitCS_cl (tail : List Char) :
    splitColonSpace ("Content-Length: ".data ++ tail) =
      some ("Content-Length".data, tail) := rfl

theorem pyInt_natToDec (T : CharTables) (N : Nat) :
    pyInt T (natToDec N) = some ((N : Int)) := by
  unfold pyInt
  have hstrip : pyStrip T (natToDec N) = natToDec N :=
    pyStrip_no_space T _
      (fun c hc => pyIsSpace_of_isDigit T c (natToDec_all_digits N c hc))
  rw [hstrip]
  rcases natToDec_head N with ⟨c, t, h1, h2⟩
  rw [h1]
  show (if c = '-' then
      if t ≠ [] ∧ t.all Char.isDigit then some (-(decVal t : Int))
      else none
    else if c = '+' then
      if t ≠ [] ∧ t.all Char.isDigit then some ((decVal t : Int))
      else none
    else
      if (c :: t).all Char.isDigit then some ((decVal (c :: t) : Int))
      else none) = some ((N : Int))
  rw [if_neg (isDigit_ne_zero_char c h2).1,
    if_neg (isDigit_ne_zero_char c h2).2]
  have hall : (c :: t).all Char.isDigit = true := by
    rw [← h1]
    exact List.all_eq_true.2 (natToDec_all_digits N)
  rw [if_pos hall, ← h1, decVal_natToDec]

theorem readHeaders_send (T : CharTables) (N : Nat) (tail : List Char)
    (f : Nat) :
    readHeaders T (f + 2)
      (("Content-Length: ".data ++ (natToDec N ++ ['\r'])) ++
        ('\n' :: ('\r' :: ('\n' :: tail)))) [] =
      some ([("Content-Length".data, natToDec N)], tail) := by
  have hpre : ¬ '\n' ∈ ("Content-Length: ".data ++
      (natToDec N ++ ['\r'])) := by
    intro hmem
    rcases List.mem_append.1 hmem with h | h
    · exact absurd h (by decide)
    rcases List.mem_append.1 h with h | h
    · exact absurd (natToDec_all_digits N _ h) (by decide)
    · exact absurd h (by decide)
  rw [readHeaders, readLine_append _ _ hpre]
  show (if (("Content-Length: ".data ++ (natToDec N ++ ['\r'])) ++
      ['\n']) = [] then none
    else
      if pyStrip T (("Content-Length: ".data ++ (natToDec N ++ ['\r'])) ++
          ['\n']) = [] then
        some (([] : List (List Char × List Char)),
          '\r' :: ('\n' :: tail))
      else
        match splitColonSpace
            (pyStrip T (("Content-Length: ".data ++
              (natToDec N ++ ['\r'])) ++ ['\n'])) with
        | some (k, v) =>
          readHeaders T (f + 1) ('\r' :: ('\n' :: tail))
            (storeHeader [] k v)
        | none => none) =
    some ([("Content-Length".data, natToDec N)], tail)
  rw [if_neg (by simp), pyStrip_header T N, if_neg (by simp), splitCS_cl]
  show readHeaders T (f + 1) ('\r' :: ('\n' :: tail))
    [("Content-Length".data, natToDec N)] =
    some ([("Content-Length".data, natToDec N)], tail)
  rfl

theorem readMessage_send (T : CharTables) (kvs : List (String × Json))
    (hwf : wfVal (Json.obj kvs) = true) (rest : List Char) :
    readMessage T (sendMessage (Json.obj kvs) ++ rest) =
      some (Json.obj kvs, rest) := by
  have hld : loads (dumpVal (Json.obj kvs)) = some (Json.obj kvs) :=
    loads_dump _ hwf
  have hascii : ∀ x ∈ dumpVal (Json.obj kvs), x.toNat < 128 :=
    dump_ascii _
  have hpos : 0 < (dumpVal (Json.obj kvs)).length := dump_len_pos _
  show readMessage T (((("Content-Length: ".data ++
      natToDec (utf8Len (dumpVal (Json.obj kvs)))) ++ "\r\n\r\n".data)
      ++ dumpVal (Json.obj kvs)) ++ rest) = some (Json.obj kvs, rest)
  obtain ⟨D, hD⟩ : ∃ D, dumpVal (Json.obj kvs) = D := ⟨_, rfl⟩
  rw [hD] at hld hascii hpos
  rw [hD]
  have hN : utf8Len D = D.length := utf8Len_ascii D hascii
  have h2 : ((("Content-Length: ".data ++ natToDec (utf8Len D)) ++
      "\r\n\r\n".data) ++ D) ++ rest =
      ("Content-Length: ".data ++ (natToDec (utf8Len D) ++ ['\r'])) ++
        ('\n' :: ('\r' :: ('\n' :: (D ++ rest)))) := by
    simp only [List.append_assoc, List.cons_append, List.nil_append]
  rw [h2]
  unfold readMessage
  obtain ⟨f, hf⟩ : ∃ f,
      (("Content-Length: ".data ++ (natToDec (utf8Len D) ++ ['\r'])) ++
        ('\n' :: ('\r' :: ('\n' :: (D ++ rest))))).length + 1 =
      f + 2 :=
    ⟨(("Content-Length: ".data ++ (natToDec (utf8Len D) ++ ['\r'])) ++
        ('\n' :: ('\r' :: ('\n' :: (D ++ rest))))).length - 1, by
      simp only [List.length_append, List.length_cons]
      omega⟩
  rw [hf, readHeaders_send T (utf8Len D) (D ++ rest) f]
  show (match pyInt T (natToDec (utf8Len D)) with
    | none => none
    | some n =>
      if n = 0 then none
      else
        match loads (if n < 0 then D ++ rest
          else (D ++ rest).take n.toNat) with
        | some msg =>
          (match msg with
           | Json.obj o => some (msg, if n < 0 then []
               else (D ++ rest).drop n.toNat)
           | _ => none)
        | none => none) = some (Json.obj kvs, rest)
  rw [pyInt_natToDec T (utf8Len D)]
  show (if ((utf8Len D : Int)) = 0 then none
    else
      match loads (if ((utf8Len D : Int)) < 0 then D ++ rest
        else (D ++ rest).take ((utf8Len D : Int)).toNat) with
      | some msg =>
        (match msg with
         | Json.obj o => some (msg, if ((utf8Len D : Int)) < 0 then []
             else (D ++ rest).drop ((utf8Len D : Int)).toNat)
         | _ => none)
      | none => none) = some (Json.obj kvs, rest)
  have hne0 : ¬ ((utf8Len D : Int)) = 0 := by omega
  have hneg : ¬ ((utf8Len D : Int)) < 0 := by omega
  rw [if_neg hne0, if_neg hneg, if_neg hneg, Int.toNat_natCast, hN,
    List.take_left, List.drop_left, hld]

/-- C1: framing round-trip.  Serializing a message (a JSON object with
pairwise-distinct keys, arbitrary nested payloads and unicode strings
included) with `send_message` and decoding the resulting stream with
`read_message` returns the original value unchanged and consumes exactly
the framed message, leaving the rest of the stream.  (The object-shape
hypothesis reflects both that `send_message` takes a dict and that
`read_message`'s logging line `message.get(...)` raises on any non-dict
message.) -/
theorem c1_framing_roundtrip (T : CharTables) (v : Json)
    (hwf : wfVal v = true) (hobj : ∃ kvs, v = Json.obj kvs)
    (rest : List Char) :
    readMessage T (sendMessage v ++ rest) = some (v, rest) := by
  obtain ⟨kvs, rfl⟩ := hobj
  exact readMessage_send T kvs hwf rest

/-- Closed instance of the C1 theorem on a message with a nested
non-BMP unicode payload. -/
theorem c1_framing_roundtrip_witness :
    (wfVal (Json.obj [("id", Json.num 3), ("result", Json.str "𝔸")]) =
      true) ∧
    (∃ kvs, Json.obj [("id", Json.num 3), ("result", Json.str "𝔸")] =
      Json.obj kvs) ∧
    readMessage asciiTables
      (sendMessage (Json.obj [("id", Json.num 3),
        ("result", Json.str "𝔸")]) ++ ['X']) =
      some (Json.obj [("id", Json.num 3), ("result", Json.str "𝔸")],
        ['X']) :=
  ⟨by decide, ⟨_, rfl⟩,
    c1_framing_roundtrip asciiTables
      (Json.obj [("id", Json.num 3), ("result", Json.str "𝔸")])
      (by decide) ⟨_, rfl⟩ ['X']⟩

/-- C8: handling a `shutdown` request yields the null-result response and
clears the `running` flag; once `running` is false the main loop returns
without reading anything from the stream; and in the combined scenario —
a framed `shutdown` request at the head of the stream — the response is
emitted and nothing after the request is read. -/
theorem c8_shutdown_response_then_stop (T : CharTables) (st : SState)
    (id params : Json) (hid : ¬ id = Json.null)
    (hwfid : wfVal id = true) (hrun : st.running = true) (f : Nat)
    (stream : List Char) :
    handleRequest st id (Json.str "shutdown") params =
      ({ st with running := false },
        [Json.obj [("jsonrpc", Json.str "2.0"), ("id", id),
          ("result", Json.null)]]) ∧
    (∀ (f2 : Nat) (st2 : SState) (stream2 : List Char),
      st2.running = false → runFuel T f2 st2 stream2 = []) ∧
    runFuel T (f + 1) st
      (sendMessage (Json.obj [("jsonrpc", Json.str "2.0"), ("id", id),
        ("method", Json.str "shutdown")]) ++ stream) =
      [Json.obj [("jsonrpc", Json.str "2.0"), ("id", id),
        ("result", Json.null)]] := by
  have hstop : ∀ (f2 : Nat) (st2 : SState) (stream2 : List Char),
      st2.running = false → runFuel T f2 st2 stream2 = [] := by
    intro f2 st2 stream2 h
    cases f2 with
    | zero => rfl
    | succ g =>
      rw [runFuel, h]
      rfl
  refine ⟨rfl, hstop, ?_⟩
  have hwfobj : wfVal (Json.obj [("jsonrpc", Json.str "2.0"),
      ("id", id), ("method", Json.str "shutdown")]) = true := by
    simp [wfVal, wfObj, hwfid]
  rw [runFuel, if_pos hrun, readMessage_send T _ hwfobj stream]
  show (if id = Json.null then
      (match handleNote T st (Json.str "shutdown") (Json.obj []) with
       | (st2, out, exited) =>
         if exited then out else out ++ runFuel T f st2 stream)
    else
      match handleRequest st id (Json.str "shutdown") (Json.obj []) with
      | (st2, out) => out ++ runFuel T f st2 stream) =
    [Json.obj [("jsonrpc", Json.str "2.0"), ("id", id),
      ("result", Json.null)]]
  rw [if_neg hid]
  show [Json.obj [("jsonrpc", Json.str "2.0"), ("id", id),
      ("result", Json.null)]] ++
      runFuel T f { st with running := false } stream =
    [Json.obj [("jsonrpc", Json.str "2.0"), ("id", id),
      ("result", Json.null)]]
  rw [hstop f { st with running := false } stream rfl]
  rfl

/-- Closed instance of the C8 theorem: a framed shutdown request followed
by further stream content. -/
theorem c8_shutdown_response_then_stop_witness :
    (¬ Json.num 5 = Json.null) ∧ (wfVal (Json.num 5) = true) ∧
    (initState.running = true) ∧
    (handleRequest initState (Json.num 5) (Json.str "shutdown")
        (Json.obj []) =
      ({ initState with running := false },
        [Json.obj [("jsonrpc", Json.str "2.0"), ("id", Json.num 5),
          ("result", Json.null)]]) ∧
    (∀ (f2 : Nat) (st2 : SState) (stream2 : List Char),
      st2.running = false → runFuel asciiTables f2 st2 stream2 = []) ∧
    runFuel asciiTables (2 + 1) initState
      (sendMessage (Json.obj [("jsonrpc", Json.str "2.0"),
        ("id", Json.num 5), ("method", Json.str "shutdown")]) ++ ['Z']) =
      [Json.obj [("jsonrpc", Json.str "2.0"), ("id", Json.num 5),
        ("result", Json.null)]]) :=
  ⟨by decide, by decide, rfl,
    c8_shutdown_response_then_stop asciiTables initState (Json.num 5)
      (Json.obj []) (by decide) (by decide) rfl 2 ['Z']⟩

/-- Closed instance of the C2 theorem on a BMP-only text. -/
theorem c2_utf16_columns_bmp_witness :
    (∀ l ∈ splitNl ("ab TODO").data, ∀ c ∈ l, c.toNat < 65536) ∧
    ∀ d ∈ analyze asciiTables "ab TODO",
      d.endLine = d.startLine ∧
      d.startChar =
        utf16Len (((splitNl ("ab TODO").data).getD d.startLine []).take
          d.startChar) ∧
      d.endChar =
        utf16Len (((splitNl ("ab TODO").data).getD d.startLine []).take
          d.endChar) :=
  ⟨by decide, c2_utf16_columns_bmp asciiTables "ab TODO" (by decide)⟩

/-- Closed instance of the C3 theorem on the spec's example line. -/
theorem c3_todo_fixme_line_witness :
    (countMatches asciiTables ("TODO".data)
      ((splitNl ("// TODO fix FIXME later").data).getD 0 []) = 1) ∧
    (countMatches asciiTables ("FIXME".data)
      ((splitNl ("// TODO fix FIXME later").data).getD 0 []) = 1) ∧
    (((splitNl ("// TODO fix FIXME later").data).getD 0 []).length ≤
      120) ∧
    ((0 : Nat) = 0 ∨
      (splitNl ("// TODO fix FIXME later").data).getD 0 [] ≠
        (splitNl ("// TODO fix FIXME later").data).getD (0 - 1) []) ∧
    ∃ s1 s2,
      isMatchAt asciiTables ("TODO".data)
        ((splitNl ("// TODO fix FIXME later").data).getD 0 []) s1 =
        true ∧
      (∀ j, isMatchAt asciiTables ("TODO".data)
        ((splitNl ("// TODO fix FIXME later").data).getD 0 []) j =
        true → j = s1) ∧
      isMatchAt asciiTables ("FIXME".data)
        ((splitNl ("// TODO fix FIXME later").data).getD 0 []) s2 =
        true ∧
      (∀ j, isMatchAt asciiTables ("FIXME".data)
        ((splitNl ("// TODO fix FIXME later").data).getD 0 []) j =
        true → j = s2) ∧
      (analyze asciiTables "// TODO fix FIXME later").filter
          (fun d => decide (d.startLine = 0)) =
        [⟨0, s1, 0, s1 + 4, todoMsg, 3, srcTag⟩,
         ⟨0, s2, 0, s2 + 5, fixmeMsg, 2, srcTag⟩] :=
  ⟨by decide, by decide, by decide, Or.inl rfl,
    c3_todo_fixme_line asciiTables "// TODO fix FIXME later" 0
      (by decide) (by decide) (by decide) (Or.inl rfl)⟩

end LSPServer
